import Mathlib

/-!
# Verification of the gastown metadata-overlay codec and attach/detach machine

Shallow embedding of `internal/beads/beads.go` (field codec, attach/detach
state machine, audit log) and the events package (event log), over
`List Char` as the model of Go strings.  Go's `strings.Split(s, "\n")`,
`strings.TrimSpace`, `strings.ToLower`, `strings.Index` and `strings.Join`
are embedded as executable functions below; the record store (the external
`bd` CLI) is modelled as an association list of issues, and the filesystem
touched by the two append-only logs as an explicit structure.
-/

/-- Go strings, modelled byte-for-byte as lists of characters. -/
abbrev Str := List Char

/-- Shorthand to write a modelled Go string from a Lean literal. -/
def str (s : String) : Str := s.toList

/-- Go's `unicode.IsSpace` (the characters `strings.TrimSpace` trims). -/
def isGoSpace (c : Char) : Bool :=
  c = '\t' || c = '\n' || c = '\x0b' || c = '\x0c' || c = '\r' || c = ' ' ||
  c = '\u0085' || c = '\u00A0' || c = '\u1680' ||
  ('\u2000' ≤ c && c ≤ '\u200A') || c = '\u2028' || c = '\u2029' ||
  c = '\u202F' || c = '\u205F' || c = '\u3000'

/-- Left half of `strings.TrimSpace`. -/
def trimLeft (s : Str) : Str := s.dropWhile isGoSpace

/-- Right half of `strings.TrimSpace`. -/
def trimRight (s : Str) : Str := (s.reverse.dropWhile isGoSpace).reverse

/-- Go's `strings.TrimSpace`. -/
def trimSpace (s : Str) : Str := trimRight (trimLeft s)

/-- Go's `strings.ToLower`, restricted to ASCII (all schema keys are ASCII). -/
def toLowerStr (s : Str) : Str := s.map Char.toLower

/-- Go's `strings.Index(line, c)` followed by slicing `line[:i]` / `line[i+1:]`:
returns the text before and after the first occurrence of `c`, or `none` when
`c` does not occur (`Index` returning `-1`). -/
def splitFirst (c : Char) : Str → Option (Str × Str)
  | [] => none
  | a :: rest =>
    if a = c then some ([], rest)
    else
      match splitFirst c rest with
      | none => none
      | some (p, q) => some (a :: p, q)

/-- Go's `strings.Split(s, "\n")`. -/
def splitLines : Str → List Str
  | [] => [[]]
  | a :: rest =>
    if a = '\n' then [] :: splitLines rest
    else
      match splitLines rest with
      | [] => [[a]]
      | l :: ls => (a :: l) :: ls

/-- Go's `strings.Join(ls, "\n")`. -/
def joinLines : List Str → Str
  | [] => []
  | [l] => l
  | l :: ls => l ++ '\n' :: joinLines ls

/-- Membership of a key in a schema's alias table (`attachmentKeys[key]` /
`mrKeys[key]` map lookups in the source). -/
def memStr (ks : List Str) (k : Str) : Bool := ks.any fun x => decide (x = k)

/-- A fully-blank line (`strings.TrimSpace(line) == ""`). -/
def isBlankLine (l : Str) : Bool := (trimSpace l).isEmpty

/-- The trailing-blank-line trim loop of `SetAttachmentFields`/`SetMRFields`. -/
def dropTrailingBlanks (ls : List Str) : List Str :=
  (ls.reverse.dropWhile isBlankLine).reverse

/-- Both blank-line trim loops: trailing first, then leading. -/
def trimBlankEdges (ls : List Str) : List Str :=
  (dropTrailingBlanks ls).dropWhile isBlankLine

/-- The line filter shared by `SetAttachmentFields` and `SetMRFields`: a line
is kept as "other content" when it is blank, has no colon, or its lowercased,
trimmed key is not in the schema's alias table. -/
def keepLine (keys : List Str) (line : Str) : Bool :=
  if trimSpace line = [] then true
  else
    match splitFirst ':' (trimSpace line) with
    | none => true
    | some (k, _) => !memStr keys (toLowerStr (trimSpace k))

/-- A beads issue; only the fields this core reads or writes. -/
structure Issue where
  id : Str
  title : Str
  description : Str
  status : Str
deriving DecidableEq

/-- `AttachmentFields` from the source: the attachment overlay schema. -/
structure AttachmentFields where
  attachedMolecule : Str
  attachedAt : Str
  attachedArgs : Str
deriving DecidableEq

/-- The alias table of `SetAttachmentFields` (all lowercase). -/
def attachmentKeys : List Str :=
  [str "attached_molecule", str "attached-molecule", str "attachedmolecule",
   str "attached_at", str "attached-at", str "attachedat",
   str "attached_args", str "attached-args", str "attachedargs"]

/-- One iteration of the line loop of `ParseAttachmentFields`: trim the line,
skip it when blank, colon-free or empty-valued, otherwise dispatch the
lowercased key through the alias switch (last occurrence wins). -/
def parseStep (acc : AttachmentFields × Bool) (line : Str) :
    AttachmentFields × Bool :=
  if trimSpace line = [] then acc
  else
    match splitFirst ':' (trimSpace line) with
    | none => acc
    | some (k, rest) =>
      if trimSpace rest = [] then acc
      else
        let value := trimSpace rest
        let lk := toLowerStr (trimSpace k)
        if lk = str "attached_molecule" || lk = str "attached-molecule" ||
            lk = str "attachedmolecule" then
          ({ acc.1 with attachedMolecule := value }, true)
        else if lk = str "attached_at" || lk = str "attached-at" ||
            lk = str "attachedat" then
          ({ acc.1 with attachedAt := value }, true)
        else if lk = str "attached_args" || lk = str "attached-args" ||
            lk = str "attachedargs" then
          ({ acc.1 with attachedArgs := value }, true)
        else acc

/-- `ParseAttachmentFields` from the source: extract attachment fields from an
issue's description, `none` when the issue is nil, the description empty, or
no recognized field is present. -/
def ParseAttachmentFields (issue : Option Issue) : Option AttachmentFields :=
  match issue with
  | none => none
  | some iss =>
    if iss.description = [] then none
    else
      match (splitLines iss.description).foldl parseStep
          ({ attachedMolecule := [], attachedAt := [], attachedArgs := [] },
           false) with
      | (fields, true) => some fields
      | (_, false) => none

/-- The lines emitted by `FormatAttachmentFields`: one `key: value` line per
non-empty field, in schema order. -/
def attachmentFieldLines (f : AttachmentFields) : List Str :=
  (if f.attachedMolecule ≠ [] then
    [str "attached_molecule: " ++ f.attachedMolecule] else []) ++
  (if f.attachedAt ≠ [] then [str "attached_at: " ++ f.attachedAt] else []) ++
  (if f.attachedArgs ≠ [] then [str "attached_args: " ++ f.attachedArgs]
   else [])

/-- `FormatAttachmentFields` from the source (`nil` modelled as `none`). -/
def FormatAttachmentFields : Option AttachmentFields → Str
  | none => []
  | some f => joinLines (attachmentFieldLines f)

/-- The merge algorithm shared by `SetAttachmentFields` and `SetMRFields`:
drop every line whose key is in the schema's alias table, trim trailing then
leading blank lines from the surviving content, and place the formatted block
(if any) in front, separated by one blank line. -/
def mergeDesc (keys : List Str) (formatted : Str) (desc : Str) : Str :=
  let otherLines := if desc = [] then []
    else (splitLines desc).filter (keepLine keys)
  let other := trimBlankEdges otherLines
  if formatted = [] then joinLines other
  else if other = [] then formatted
  else formatted ++ '\n' :: '\n' :: joinLines other

/-- `SetAttachmentFields` from the source: replace the attachment overlay in
an issue's description, preserving other content. -/
def SetAttachmentFields (issue : Option Issue)
    (fields : Option AttachmentFields) : Str :=
  mergeDesc attachmentKeys (FormatAttachmentFields fields)
    (match issue with | none => [] | some iss => iss.description)

/-- `MRFields` from the source: the merge-request overlay schema. -/
structure MRFields where
  branch : Str
  target : Str
  sourceIssue : Str
  worker : Str
  rig : Str
  mergeCommit : Str
  closeReason : Str
deriving DecidableEq

/-- The alias table of `SetMRFields` (all lowercase). -/
def mrKeys : List Str :=
  [str "branch", str "target",
   str "source_issue", str "source-issue", str "sourceissue",
   str "worker", str "rig",
   str "merge_commit", str "merge-commit", str "mergecommit",
   str "close_reason", str "close-reason", str "closereason"]

/-- The lines emitted by `FormatMRFields`: one `key: value` line per
non-empty field, in schema order. -/
def mrFieldLines (f : MRFields) : List Str :=
  (if f.branch ≠ [] then [str "branch: " ++ f.branch] else []) ++
  (if f.target ≠ [] then [str "target: " ++ f.target] else []) ++
  (if f.sourceIssue ≠ [] then [str "source_issue: " ++ f.sourceIssue]
   else []) ++
  (if f.worker ≠ [] then [str "worker: " ++ f.worker] else []) ++
  (if f.rig ≠ [] then [str "rig: " ++ f.rig] else []) ++
  (if f.mergeCommit ≠ [] then [str "merge_commit: " ++ f.mergeCommit]
   else []) ++
  (if f.closeReason ≠ [] then [str "close_reason: " ++ f.closeReason]
   else [])

/-- `FormatMRFields` from the source (`nil` modelled as `none`). -/
def FormatMRFields : Option MRFields → Str
  | none => []
  | some f => joinLines (mrFieldLines f)

/-- `SetMRFields` from the source: replace the merge-request overlay in an
issue's description, preserving other content. -/
def SetMRFields (issue : Option Issue) (fields : Option MRFields) : Str :=
  mergeDesc mrKeys (FormatMRFields fields)
    (match issue with | none => [] | some iss => iss.description)

/-- Errors surfaced by the state machine (the taxonomy the claims name). -/
inductive BeadsError where
  | notFound
  | invalidState (id status : Str)
deriving DecidableEq

/-- The external record store, modelled as an association list id ↦ issue. -/
abbrev Store := List (Str × Issue)

/-- `bd show`: fetch an issue by id. -/
def findIssue : Store → Str → Option Issue
  | [], _ => none
  | (k, v) :: rest, i => if k = i then some v else findIssue rest i

/-- `bd update --description`: persist a new description for an issue. -/
def updateDesc : Store → Str → Str → Store
  | [], _, _ => []
  | (k, v) :: rest, i, d =>
    if k = i then (k, { v with description := d }) :: updateDesc rest i d
    else (k, v) :: updateDesc rest i d

/-- Result of a state-machine transition: the Go `(*Issue, error)` pair,
together with the record-store state after the call. -/
structure AttachOutcome where
  result : Except BeadsError Issue
  store : Store

/-- `AttachMolecule` from the source: fetch, require pinned status, merge
`attached_molecule`/`attached_at` into the description, persist, re-fetch.
`now` models `currentTimestamp()`. -/
def AttachMolecule (st : Store) (now pinnedBeadID moleculeID : Str) :
    AttachOutcome :=
  match findIssue st pinnedBeadID with
  | none => ⟨.error .notFound, st⟩
  | some issue =>
    if issue.status ≠ str "pinned" then
      ⟨.error (.invalidState pinnedBeadID issue.status), st⟩
    else
      let fields : AttachmentFields :=
        { attachedMolecule := moleculeID, attachedAt := now,
          attachedArgs := [] }
      let newDesc := SetAttachmentFields (some issue) (some fields)
      let st2 := updateDesc st pinnedBeadID newDesc
      match findIssue st2 pinnedBeadID with
      | none => ⟨.error .notFound, st2⟩
      | some updated => ⟨.ok updated, st2⟩

/-- `DetachMolecule` from the source: fetch, no-op when no attachment fields
are present, otherwise strip the overlay, persist, re-fetch. -/
def DetachMolecule (st : Store) (pinnedBeadID : Str) : AttachOutcome :=
  match findIssue st pinnedBeadID with
  | none => ⟨.error .notFound, st⟩
  | some issue =>
    match ParseAttachmentFields (some issue) with
    | none => ⟨.ok issue, st⟩
    | some _ =>
      let newDesc := SetAttachmentFields (some issue) none
      let st2 := updateDesc st pinnedBeadID newDesc
      match findIssue st2 pinnedBeadID with
      | none => ⟨.error .notFound, st2⟩
      | some updated => ⟨.ok updated, st2⟩

/-- `DetachAuditEntry` from the source. -/
structure DetachAuditEntry where
  timestamp : Str
  operation : Str
  pinnedBeadID : Str
  detachedMolecule : Str
  detachedBy : Str
  reason : Str
  previousState : Str
deriving DecidableEq

/-- `DetachOptions` from the source. -/
structure DetachOptions where
  operation : Str
  agent : Str
  reason : Str
deriving DecidableEq

/-- One hexadecimal digit, as emitted by Go's JSON `\u00XX` escapes. -/
def hexDigit (n : Nat) : Char :=
  if n < 10 then Char.ofNat (48 + n) else Char.ofNat (87 + n)

/-- Go `encoding/json` escaping of one character inside a string literal
(HTML escaping on, as in `json.Marshal`). -/
def escChar (c : Char) : Str :=
  if c = '"' then str "\\\""
  else if c = '\\' then str "\\\\"
  else if c = '\n' then str "\\n"
  else if c = '\r' then str "\\r"
  else if c = '\t' then str "\\t"
  else if c = '<' then str "\\u003c"
  else if c = '>' then str "\\u003e"
  else if c = '&' then str "\\u0026"
  else if c.toNat < 32 then
    str "\\u00" ++ [hexDigit (c.toNat / 16), hexDigit (c.toNat % 16)]
  else if c = '\u2028' then str "\\u2028"
  else if c = '\u2029' then str "\\u2029"
  else [c]

/-- Go `encoding/json` string literal encoding. -/
def jsonString (s : Str) : Str := '"' :: s.flatMap escChar ++ ['"']

/-- `json.Marshal` of a `DetachAuditEntry`: fields in struct order, with
`omitempty` on `detached_by`, `reason` and `previous_state`. -/
def jsonMarshalAudit (e : DetachAuditEntry) : Str :=
  str "\x7b\"timestamp\":" ++ jsonString e.timestamp ++
  str ",\"operation\":" ++ jsonString e.operation ++
  str ",\"pinned_bead_id\":" ++ jsonString e.pinnedBeadID ++
  str ",\"detached_molecule\":" ++ jsonString e.detachedMolecule ++
  (if e.detachedBy = [] then []
   else str ",\"detached_by\":" ++ jsonString e.detachedBy) ++
  (if e.reason = [] then [] else str ",\"reason\":" ++ jsonString e.reason) ++
  (if e.previousState = [] then []
   else str ",\"previous_state\":" ++ jsonString e.previousState) ++
  ['}']

/-- The filesystem slice the two logs touch: the set of existing directories
and the contents of existing files. -/
structure FS where
  dirs : List Str
  files : List (Str × Str)
deriving DecidableEq

/-- Contents of a file, when it exists. -/
def lookupFile : List (Str × Str) → Str → Option Str
  | [], _ => none
  | (p, c) :: rest, q => if p = q then some c else lookupFile rest q

/-- Overwrite or create a file. -/
def setFile : List (Str × Str) → Str → Str → List (Str × Str)
  | [], p, c => [(p, c)]
  | (p', c') :: rest, p, c =>
    if p' = p then (p', c) :: rest else (p', c') :: setFile rest p c

/-- `os.OpenFile(path, O_CREATE|O_APPEND|O_WRONLY)` followed by a write:
creates the file when absent and appends `data` to it. -/
def appendFile (fs : FS) (path data : Str) : FS :=
  { fs with
    files := setFile fs.files path ((lookupFile fs.files path).getD [] ++ data) }

/-- `filepath.Join` of two components. -/
def joinPath (a b : Str) : Str := a ++ '/' :: b

/-- The `.beads` directory of a working directory. -/
def auditDir (workDir : Str) : Str := joinPath workDir (str ".beads")

/-- `filepath.Join(b.workDir, ".beads", "audit.log")`. -/
def auditPath (workDir : Str) : Str :=
  joinPath (auditDir workDir) (str "audit.log")

/-- `LogDetachAudit` from the source: marshal the entry to one JSON line and
append it to `.beads/audit.log`.  `os.OpenFile` with `O_CREATE` creates the
file when absent but fails when the containing directory does not exist; no
`MkdirAll` is performed. -/
def LogDetachAudit (fs : FS) (workDir : Str) (entry : DetachAuditEntry) :
    Except Str FS :=
  if fs.dirs.contains (auditDir workDir) then
    .ok (appendFile fs (auditPath workDir) (jsonMarshalAudit entry ++ ['\n']))
  else .error (str "opening audit log")

/-- Result of `DetachMoleculeWithAudit`: the `(*Issue, error)` pair, the
record-store and filesystem states after the call, and the warnings printed
to stderr (the side channel for audit failures). -/
structure DetachOutcome where
  result : Except BeadsError Issue
  store : Store
  fs : FS
  warnings : List Str

/-- `DetachMoleculeWithAudit` from the source: fetch, no-op when nothing is
attached, otherwise build the audit entry, append it (downgrading a failure
to a stderr warning), strip the overlay, persist, re-fetch. -/
def DetachMoleculeWithAudit (st : Store) (fs : FS)
    (workDir now pinnedBeadID : Str) (opts : DetachOptions) : DetachOutcome :=
  match findIssue st pinnedBeadID with
  | none => ⟨.error .notFound, st, fs, []⟩
  | some issue =>
    match ParseAttachmentFields (some issue) with
    | none => ⟨.ok issue, st, fs, []⟩
    | some attachment =>
      let operation := if opts.operation = [] then str "detach"
        else opts.operation
      let entry : DetachAuditEntry :=
        { timestamp := now, operation := operation,
          pinnedBeadID := pinnedBeadID,
          detachedMolecule := attachment.attachedMolecule,
          detachedBy := opts.agent, reason := opts.reason,
          previousState := issue.status }
      let fsw := match LogDetachAudit fs workDir entry with
        | .ok f => (f, ([] : List Str))
        | .error e => (fs, [str "Warning: failed to write audit log: " ++ e])
      let newDesc := SetAttachmentFields (some issue) none
      let st2 := updateDesc st pinnedBeadID newDesc
      match findIssue st2 pinnedBeadID with
      | none => ⟨.error .notFound, st2, fsw.1, fsw.2⟩
      | some updated => ⟨.ok updated, st2, fsw.1, fsw.2⟩

/-- Number of audit entries on disk: each append terminates its single JSON
line with one `'\n'`. -/
def auditLineCount (fs : FS) (workDir : Str) : Nat :=
  ((lookupFile fs.files (auditPath workDir)).getD []).count '\n'

/-- JSON values, for event payloads (`map[string]interface{}`; a Go map is
marshalled with its keys sorted, so the payload is modelled as the ordered
association list `json.Marshal` would emit). -/
inductive Json where
  | null
  | bool (b : Bool)
  | num (n : Int)
  | str (s : Str)
  | arr (elems : List Json)
  | obj (fields : List (Str × Json))

/-- Decimal rendering of an integer, as Go's JSON encoder emits it. -/
def intStr (n : Int) : Str :=
  if n < 0 then '-' :: Nat.toDigits 10 (-n).toNat
  else Nat.toDigits 10 n.toNat

mutual

/-- Go `encoding/json` encoding of a JSON value. -/
def encodeJson : Json → Str
  | .null => str "null"
  | .bool true => str "true"
  | .bool false => str "false"
  | .num n => intStr n
  | .str s => jsonString s
  | .arr es => '[' :: encodeArr es ++ [']']
  | .obj fs => '{' :: encodeObj fs ++ ['}']

/-- Comma-separated encoding of array elements. -/
def encodeArr : List Json → Str
  | [] => []
  | [e] => encodeJson e
  | e :: es => encodeJson e ++ ',' :: encodeArr es

/-- Comma-separated encoding of object members. -/
def encodeObj : List (Str × Json) → Str
  | [] => []
  | [(k, v)] => jsonString k ++ ':' :: encodeJson v
  | (k, v) :: fs => jsonString k ++ ':' :: encodeJson v ++ ',' :: encodeObj fs

end

/-- An activity `Event` from the events package. -/
structure Event where
  timestamp : Str
  source : Str
  eventType : Str
  actor : Str
  payload : List (Str × Json)
  visibility : Str

/-- `json.Marshal` of an `Event`: fields in struct order, `omitempty` on the
payload map (omitted when nil or empty). -/
def jsonMarshalEvent (e : Event) : Str :=
  str "\x7b\"ts\":" ++ jsonString e.timestamp ++
  str ",\"source\":" ++ jsonString e.source ++
  str ",\"type\":" ++ jsonString e.eventType ++
  str ",\"actor\":" ++ jsonString e.actor ++
  (if e.payload.isEmpty then []
   else str ",\"payload\":" ++ encodeJson (.obj e.payload)) ++
  str ",\"visibility\":" ++ jsonString e.visibility ++ ['}']

/-- `write` from the events package.  `findResult` models the
`workspace.FindFromCwd()` call (an external collaborator): an error or an
empty root means "not in a workspace" and the call silently no-ops.
Otherwise the event is marshalled to one JSON line and appended to
`<townRoot>/.events.jsonl` under the process-wide mutex (sequentialized
here). -/
def eventsWrite (findResult : Except Str Str) (fs : FS) (event : Event) :
    Except Str Unit × FS :=
  match findResult with
  | .error _ => (.ok (), fs)
  | .ok townRoot =>
    if townRoot = [] then (.ok (), fs)
    else
      let eventsPath := joinPath townRoot (str ".events.jsonl")
      let data := jsonMarshalEvent event ++ ['\n']
      if fs.dirs.contains townRoot then (.ok (), appendFile fs eventsPath data)
      else (.error (str "opening events file"), fs)

/-- `Log` from the events package: stamp the event with the current UTC time
and the fixed source `"gt"`, then hand it to `write`. -/
def eventsLog (findResult : Except Str Str) (fs : FS)
    (now eventType actor : Str) (payload : List (Str × Json))
    (visibility : Str) : Except Str Unit × FS :=
  eventsWrite findResult fs
    { timestamp := now, source := str "gt", eventType := eventType,
      actor := actor, payload := payload, visibility := visibility }

/-- A well-formed overlay value: absent, or non-empty with no surrounding
whitespace and no embedded newline (what `format` can emit reversibly). -/
def okValue (v : Str) : Prop := v = [] ∨ (trimSpace v = v ∧ '\n' ∉ v)

instance (v : Str) : Decidable (okValue v) := by unfold okValue; infer_instance

/-- A `<alias>:` line whose value is empty after trimming: the trimmed line
splits at its first colon into a key that is a schema alias and a value that
trims to nothing. -/
def emptyValueSchemaLine (keys : List Str) (l : Str) : Bool :=
  match splitFirst ':' (trimSpace l) with
  | none => false
  | some (k, rest) =>
    memStr keys (toLowerStr (trimSpace k)) && (trimSpace rest).isEmpty

/-- No field value of an attachment field set contains a newline. -/
def valuesNewlineFree : Option AttachmentFields → Prop
  | none => True
  | some f =>
    '\n' ∉ f.attachedMolecule ∧ '\n' ∉ f.attachedAt ∧ '\n' ∉ f.attachedArgs

instance (f : Option AttachmentFields) : Decidable (valuesNewlineFree f) := by
  unfold valuesNewlineFree; cases f <;> infer_instance

/-! ## Lemmas about line splitting and joining -/

theorem splitLines_ne_nil (s : Str) : splitLines s ≠ [] := by
  induction s with
  | nil => simp [splitLines]
  | cons a rest ih =>
    simp only [splitLines]
    split
    · simp
    · rcases h : splitLines rest with _ | ⟨l, ls⟩
      · simp
      · simp

theorem splitLines_cons_newline (b : Str) :
    splitLines ('\n' :: b) = [] :: splitLines b := by
  simp [splitLines]

theorem splitLines_append_newline (a b : Str) :
    splitLines (a ++ '\n' :: b) = splitLines a ++ splitLines b := by
  induction a with
  | nil => simp [splitLines]
  | cons c a ih =>
    by_cases hc : c = '\n'
    · subst hc
      simp only [List.cons_append, splitLines_cons_newline, ih,
        List.cons_append]
    · obtain ⟨l, ls, ha⟩ := List.exists_cons_of_ne_nil (splitLines_ne_nil a)
      have hab : splitLines (a ++ '\n' :: b) = l :: (ls ++ splitLines b) := by
        rw [ih, ha]; rfl
      simp only [List.cons_append, splitLines, if_neg hc, List.append_eq,
        hab, ha]

theorem mem_splitLines_no_newline {l s : Str} (h : l ∈ splitLines s) :
    '\n' ∉ l := by
  induction s generalizing l with
  | nil =>
    simp only [splitLines, List.mem_singleton] at h
    subst h; simp
  | cons a rest ih =>
    by_cases hc : a = '\n'
    · subst hc
      rw [splitLines_cons_newline] at h
      rcases List.mem_cons.1 h with h | h
      · subst h; simp
      · exact ih h
    · obtain ⟨m, ms, hr⟩ :=
        List.exists_cons_of_ne_nil (splitLines_ne_nil rest)
      have hs : splitLines (a :: rest) = (a :: m) :: ms := by
        simp only [splitLines, if_neg hc, hr]
      rw [hs] at h
      rcases List.mem_cons.1 h with h | h
      · subst h
        intro hmem
        rcases List.mem_cons.1 hmem with h | h
        · exact hc h.symm
        · exact ih (hr ▸ List.mem_cons_self m ms) h
      · exact ih (hr ▸ List.mem_cons_of_mem m h)

theorem splitLines_of_no_newline {s : Str} (h : '\n' ∉ s) :
    splitLines s = [s] := by
  induction s with
  | nil => simp [splitLines]
  | cons a rest ih =>
    have ha : a ≠ '\n' := fun hh => h (hh ▸ List.mem_cons_self a rest)
    have hr : splitLines rest = [rest] :=
      ih fun hh => h (List.mem_cons_of_mem a hh)
    simp only [splitLines, if_neg ha, hr]

theorem splitLines_joinLines {ls : List Str} (hne : ls ≠ [])
    (h : ∀ l ∈ ls, '\n' ∉ l) : splitLines (joinLines ls) = ls := by
  induction ls with
  | nil => exact absurd rfl hne
  | cons l rest ih =>
    cases rest with
    | nil =>
      simp only [joinLines]
      exact splitLines_of_no_newline (h l (List.mem_cons_self l []))
    | cons l' ls' =>
      have hj : joinLines (l :: l' :: ls') = l ++ '\n' :: joinLines (l' :: ls') :=
        rfl
      rw [hj, splitLines_append_newline,
        splitLines_of_no_newline (h l (List.mem_cons_self _ _)),
        ih (by simp) fun x hx => h x (List.mem_cons_of_mem l hx)]
      rfl

theorem joinLines_eq_nil {ls : List Str} (h : joinLines ls = []) :
    ls = [] ∨ ls = [[]] := by
  cases ls with
  | nil => exact Or.inl rfl
  | cons l rest =>
    cases rest with
    | nil =>
      right
      simp only [joinLines] at h
      rw [h]
    | cons l' ls' =>
      exfalso
      have : joinLines (l :: l' :: ls') = l ++ '\n' :: joinLines (l' :: ls') :=
        rfl
      rw [this] at h
      exact List.append_ne_nil_of_right_ne_nil l (by simp) h

theorem mem_trimBlankEdges {X : List Str} {l : Str}
    (h : l ∈ trimBlankEdges X) : l ∈ X := by
  unfold trimBlankEdges dropTrailingBlanks at h
  have h1 := (List.dropWhile_suffix isBlankLine).subset h
  rw [List.mem_reverse] at h1
  have h2 := (List.dropWhile_suffix isBlankLine).subset h1
  rwa [List.mem_reverse] at h2

/-! ## Content preservation of the merge -/

theorem trimBlankEdges_suffix_mergeDesc (keys : List Str) (fmt desc : Str) :
    trimBlankEdges ((splitLines desc).filter (keepLine keys)) <:+
      splitLines (mergeDesc keys fmt desc) := by
  by_cases hd : desc = []
  · subst hd
    have hfilter :
        (splitLines ([] : Str)).filter (keepLine keys) = [[]] := rfl
    rw [hfilter]
    have : trimBlankEdges [[]] = [] := rfl
    rw [this]
    exact List.nil_suffix
  · unfold mergeDesc
    simp only [if_neg hd]
    have hnl : ∀ l ∈ trimBlankEdges ((splitLines desc).filter (keepLine keys)),
        '\n' ∉ l := fun l hl =>
      mem_splitLines_no_newline (List.mem_of_mem_filter (mem_trimBlankEdges hl))
    by_cases hf : fmt = []
    · simp only [if_pos hf]
      by_cases hO : trimBlankEdges ((splitLines desc).filter (keepLine keys)) = []
      · rw [hO]; exact List.nil_suffix
      · rw [splitLines_joinLines hO hnl]
    · simp only [if_neg hf]
      by_cases hO : trimBlankEdges ((splitLines desc).filter (keepLine keys)) = []
      · rw [hO]
        simp only [if_pos rfl]
        exact List.nil_suffix
      · simp only [if_neg hO]
        have hsplit : splitLines (fmt ++ '\n' :: '\n' ::
            joinLines (trimBlankEdges ((splitLines desc).filter (keepLine keys)))) =
            splitLines fmt ++ [] ::
              trimBlankEdges ((splitLines desc).filter (keepLine keys)) := by
          rw [splitLines_append_newline, splitLines_cons_newline,
            splitLines_joinLines hO hnl]
        rw [hsplit]
        exact (List.suffix_cons _ _).trans (List.suffix_append _ _)

/-- C1: for every input text, field set and schema (attachment or
merge-request), the lines of the text whose key does not match any schema
alias (including colon-free lines and interior blank lines) survive the merge
verbatim and in original relative order, with only the leading and trailing
runs of fully-blank lines of the surviving content removed: the trimmed
filtered line list is a (contiguous) suffix of the merged text's lines. -/
theorem C1_content_preservation (iss : Issue) (fa : Option AttachmentFields)
    (fm : Option MRFields) :
    (trimBlankEdges ((splitLines iss.description).filter
        (keepLine attachmentKeys)) <:+
      splitLines (SetAttachmentFields (some iss) fa)) ∧
    (trimBlankEdges ((splitLines iss.description).filter
        (keepLine mrKeys)) <:+
      splitLines (SetMRFields (some iss) fm)) :=
  ⟨trimBlankEdges_suffix_mergeDesc _ _ _,
   trimBlankEdges_suffix_mergeDesc _ _ _⟩

/-! ## Lemmas about trimming and key extraction -/

theorem trimLeft_cons_of_space {c : Char} (hc : isGoSpace c = true)
    (s : Str) : trimLeft (c :: s) = trimLeft s := by
  simp [trimLeft, List.dropWhile_cons, hc]

theorem trimLeft_cons_of_nonspace {c : Char} (hc : isGoSpace c = false)
    (s : Str) : trimLeft (c :: s) = c :: s := by
  simp [trimLeft, List.dropWhile_cons, hc]

theorem trimSpace_cons_of_space {c : Char} (hc : isGoSpace c = true)
    (s : Str) : trimSpace (c :: s) = trimSpace s := by
  unfold trimSpace
  rw [trimLeft_cons_of_space hc]

theorem trimLeft_append_of_ne_nil {a : Str} (b : Str) (ha : trimLeft a = a)
    (hne : a ≠ []) : trimLeft (a ++ b) = a ++ b := by
  unfold trimLeft at *
  rw [List.dropWhile_append, ha]
  simp [List.isEmpty_iff, hne]

theorem trimRight_append_of_ne_nil (a : Str) {b : Str}
    (hb : trimRight b ≠ []) : trimRight (a ++ b) = a ++ trimRight b := by
  unfold trimRight at *
  have hb' : b.reverse.dropWhile isGoSpace ≠ [] := by
    intro h; exact hb (by rw [h]; rfl)
  rw [List.reverse_append, List.dropWhile_append,
    if_neg (by simpa [List.isEmpty_iff] using hb'),
    List.reverse_append, List.reverse_reverse]

theorem trimRight_cons_of_nonspace {c : Char} (hc : isGoSpace c = false)
    (s : Str) : trimRight (c :: s) = c :: trimRight s := by
  by_cases hs : trimRight s = []
  · unfold trimRight at *
    have hs' : s.reverse.dropWhile isGoSpace = [] := by
      have := congrArg List.reverse hs
      rwa [List.reverse_reverse, List.reverse_nil] at this
    rw [show (c :: s : Str) = [c] ++ s from rfl, List.reverse_append,
      List.dropWhile_append, hs']
    simp [List.dropWhile_cons, hc]
  · rw [show (c :: s : Str) = [c] ++ s from rfl,
      trimRight_append_of_ne_nil [c] hs]
    rfl

theorem trimLeft_eq_self_of_trimSpace {v : Str} (h : trimSpace v = v) :
    trimLeft v = v := by
  have hsub : trimLeft v <:+ v := List.dropWhile_suffix _
  have hlen : v.length ≤ (trimLeft v).length := by
    calc v.length = (trimSpace v).length := by rw [h]
    _ = ((trimLeft v).reverse.dropWhile isGoSpace).length := by
        unfold trimSpace trimRight
        rw [List.length_reverse]
    _ ≤ (trimLeft v).reverse.length :=
        (List.dropWhile_suffix _).sublist.length_le
    _ = (trimLeft v).length := List.length_reverse _
  exact hsub.sublist.eq_of_length (le_antisymm hsub.sublist.length_le hlen)

theorem trimRight_eq_self_of_trimSpace {v : Str} (h : trimSpace v = v) :
    trimRight v = v := by
  have h1 := trimLeft_eq_self_of_trimSpace h
  calc trimRight v = trimRight (trimLeft v) := by rw [h1]
  _ = trimSpace v := rfl
  _ = v := h

theorem splitFirst_no_colon_append {k : Str} (hk : ':' ∉ k) (rest : Str) :
    splitFirst ':' (k ++ ':' :: rest) = some (k, rest) := by
  induction k with
  | nil => simp [splitFirst]
  | cons a t ih =>
    have ha : a ≠ ':' := fun hh => hk (hh ▸ List.mem_cons_self a t)
    have ht : ':' ∉ t := fun hh => hk (List.mem_cons_of_mem a hh)
    simp only [List.cons_append, splitFirst, if_neg ha, List.append_eq, ih ht]

theorem trimSpace_keyline {k : Str} (w : Str) (hkl : trimLeft k = k)
    (hne : k ≠ []) : trimSpace (k ++ ':' :: w) = k ++ ':' :: trimRight w := by
  unfold trimSpace
  rw [trimLeft_append_of_ne_nil _ hkl hne,
    trimRight_append_of_ne_nil k (b := ':' :: w)
      (by rw [trimRight_cons_of_nonspace (by decide)]; simp),
    trimRight_cons_of_nonspace (by decide)]

theorem keepLine_keyline (keys : List Str) {k : Str} (w : Str)
    (hkl : trimLeft k = k) (hne : k ≠ []) (hk : ':' ∉ k) :
    keepLine keys (k ++ ':' :: w) =
      !memStr keys (toLowerStr (trimSpace k)) := by
  unfold keepLine
  rw [trimSpace_keyline w hkl hne]
  rw [if_neg (by simp [hne]), splitFirst_no_colon_append hk]

/-! ## Lemmas about the parse loop -/

theorem memStr_eq_false {ks : List Str} {x : Str} (h : memStr ks x = false) :
    ∀ y ∈ ks, x ≠ y := by
  intro y hy hxy
  subst hxy
  have : memStr ks x = true := by
    unfold memStr
    rw [List.any_eq_true]
    exact ⟨x, hy, by simp⟩
  rw [h] at this
  exact Bool.false_ne_true this

theorem trimRight_space_value {v : Str} (hv : v ≠ []) (hvt : trimSpace v = v) :
    trimRight (' ' :: v) = ' ' :: v := by
  have hr : trimRight v = v := trimRight_eq_self_of_trimSpace hvt
  rw [show (' ' :: v : Str) = [' '] ++ v from rfl,
    trimRight_append_of_ne_nil [' '] (by rw [hr]; exact hv), hr]

theorem trimSpace_space_value {v : Str} (hvt : trimSpace v = v) :
    trimSpace (' ' :: v) = v := by
  rw [trimSpace_cons_of_space (by decide), hvt]

theorem parseStep_molecule (acc : AttachmentFields × Bool) {v : Str}
    (hv : v ≠ []) (hvt : trimSpace v = v) :
    parseStep acc (str "attached_molecule: " ++ v) =
      ({ acc.1 with attachedMolecule := v }, true) := by
  have hline : str "attached_molecule: " ++ v =
      str "attached_molecule" ++ ':' :: ' ' :: v := rfl
  have htrim : trimSpace (str "attached_molecule" ++ ':' :: ' ' :: v) =
      str "attached_molecule" ++ ':' :: ' ' :: v := by
    rw [trimSpace_keyline _ (by decide) (by decide),
      trimRight_space_value hv hvt]
  rw [hline]
  unfold parseStep
  simp only [htrim,
    if_neg (List.append_ne_nil_of_right_ne_nil _ (List.cons_ne_nil _ _)),
    splitFirst_no_colon_append (show ':' ∉ str "attached_molecule" by decide),
    trimSpace_space_value hvt, if_neg hv]
  rfl

theorem parseStep_at (acc : AttachmentFields × Bool) {v : Str}
    (hv : v ≠ []) (hvt : trimSpace v = v) :
    parseStep acc (str "attached_at: " ++ v) =
      ({ acc.1 with attachedAt := v }, true) := by
  have hline : str "attached_at: " ++ v =
      str "attached_at" ++ ':' :: ' ' :: v := rfl
  have htrim : trimSpace (str "attached_at" ++ ':' :: ' ' :: v) =
      str "attached_at" ++ ':' :: ' ' :: v := by
    rw [trimSpace_keyline _ (by decide) (by decide),
      trimRight_space_value hv hvt]
  rw [hline]
  unfold parseStep
  simp only [htrim,
    if_neg (List.append_ne_nil_of_right_ne_nil _ (List.cons_ne_nil _ _)),
    splitFirst_no_colon_append (show ':' ∉ str "attached_at" by decide),
    trimSpace_space_value hvt, if_neg hv]
  rfl

theorem parseStep_args (acc : AttachmentFields × Bool) {v : Str}
    (hv : v ≠ []) (hvt : trimSpace v = v) :
    parseStep acc (str "attached_args: " ++ v) =
      ({ acc.1 with attachedArgs := v }, true) := by
  have hline : str "attached_args: " ++ v =
      str "attached_args" ++ ':' :: ' ' :: v := rfl
  have htrim : trimSpace (str "attached_args" ++ ':' :: ' ' :: v) =
      str "attached_args" ++ ':' :: ' ' :: v := by
    rw [trimSpace_keyline _ (by decide) (by decide),
      trimRight_space_value hv hvt]
  rw [hline]
  unfold parseStep
  simp only [htrim,
    if_neg (List.append_ne_nil_of_right_ne_nil _ (List.cons_ne_nil _ _)),
    splitFirst_no_colon_append (show ':' ∉ str "attached_args" by decide),
    trimSpace_space_value hvt, if_neg hv]
  rfl

theorem parseStep_of_keepLine {l : Str} (acc : AttachmentFields × Bool)
    (h : keepLine attachmentKeys l = true) : parseStep acc l = acc := by
  unfold keepLine at h
  unfold parseStep
  by_cases h0 : trimSpace l = []
  · rw [if_pos h0]
  · rw [if_neg h0]
    rw [if_neg h0] at h
    rcases hsf : splitFirst ':' (trimSpace l) with _ | ⟨k, rest⟩
    · simp only [hsf]
    · rw [hsf] at h
      simp only [hsf]
      by_cases hval : trimSpace rest = []
      · rw [if_pos hval]
      · rw [if_neg hval]
        have hmem : memStr attachmentKeys (toLowerStr (trimSpace k)) = false := by
          simpa using h
        have hall := memStr_eq_false hmem
        split
        · rename_i hcond
          exfalso
          simp only [Bool.or_eq_true, decide_eq_true_eq] at hcond
          rcases hcond with (hc | hc) | hc
          · exact hall _ (by decide) hc
          · exact hall _ (by decide) hc
          · exact hall _ (by decide) hc
        · split
          · rename_i hcond
            exfalso
            simp only [Bool.or_eq_true, decide_eq_true_eq] at hcond
            rcases hcond with (hc | hc) | hc
            · exact hall _ (by decide) hc
            · exact hall _ (by decide) hc
            · exact hall _ (by decide) hc
          · split
            · rename_i hcond
              exfalso
              simp only [Bool.or_eq_true, decide_eq_true_eq] at hcond
              rcases hcond with (hc | hc) | hc
              · exact hall _ (by decide) hc
              · exact hall _ (by decide) hc
              · exact hall _ (by decide) hc
            · rfl

theorem foldl_parseStep_of_keepLine {ls : List Str}
    (h : ∀ l ∈ ls, keepLine attachmentKeys l = true)
    (acc : AttachmentFields × Bool) : ls.foldl parseStep acc = acc := by
  induction ls generalizing acc with
  | nil => rfl
  | cons l rest ih =>
    rw [List.foldl_cons, parseStep_of_keepLine acc (h l (List.mem_cons_self _ _))]
    exact ih (fun x hx => h x (List.mem_cons_of_mem l hx)) acc

theorem parseStep_of_emptyValue {l : Str} (acc : AttachmentFields × Bool)
    (h : emptyValueSchemaLine attachmentKeys l = true) : parseStep acc l = acc := by
  unfold emptyValueSchemaLine at h
  unfold parseStep
  by_cases h0 : trimSpace l = []
  · rw [if_pos h0]
  · rw [if_neg h0]
    rcases hsf : splitFirst ':' (trimSpace l) with _ | ⟨k, rest⟩
    · simp only [hsf]
    · rw [hsf] at h
      simp only [Bool.and_eq_true, List.isEmpty_iff] at h
      simp only [hsf, if_pos h.2]

theorem foldl_parseStep_of_emptyValue {ls : List Str}
    (h : ∀ l ∈ ls, emptyValueSchemaLine attachmentKeys l = true)
    (acc : AttachmentFields × Bool) : ls.foldl parseStep acc = acc := by
  induction ls generalizing acc with
  | nil => rfl
  | cons l rest ih =>
    rw [List.foldl_cons,
      parseStep_of_emptyValue acc (h l (List.mem_cons_self _ _))]
    exact ih (fun x hx => h x (List.mem_cons_of_mem l hx)) acc

theorem keepLine_nil (keys : List Str) : keepLine keys [] = true := rfl

theorem ParseAttachmentFields_eq_none_of_keep (i t s desc : Str)
    (h : ∀ l ∈ splitLines desc, keepLine attachmentKeys l = true) :
    ParseAttachmentFields
      (some { id := i, title := t, description := desc, status := s }) =
      none := by
  unfold ParseAttachmentFields
  by_cases hd : desc = []
  · simp [hd]
  · simp only [if_neg hd]
    rw [foldl_parseStep_of_keepLine h]

theorem keepLine_of_emptyValue {keys : List Str} {l : Str}
    (h : emptyValueSchemaLine keys l = true) : keepLine keys l = false := by
  unfold emptyValueSchemaLine at h
  unfold keepLine
  rcases hsf : splitFirst ':' (trimSpace l) with _ | ⟨k, rest⟩
  · rw [hsf] at h; exact absurd h Bool.false_ne_true
  · rw [hsf] at h
    simp only [Bool.and_eq_true] at h
    have hne : trimSpace l ≠ [] := by
      intro h0
      rw [h0] at hsf
      exact absurd hsf (by simp [splitFirst])
    rw [if_neg hne]
    simp only [hsf]
    rw [h.1]
    rfl

theorem keepLine_mergeDesc_nil (keys : List Str) (desc : Str) :
    ∀ l ∈ splitLines (mergeDesc keys [] desc), keepLine keys l = true := by
  intro l hl
  simp only [mergeDesc, if_true] at hl
  by_cases hd : desc = []
  · rw [if_pos hd] at hl
    have : l = [] := by
      simpa [trimBlankEdges, dropTrailingBlanks, joinLines, splitLines] using hl
    rw [this]
    exact keepLine_nil keys
  · rw [if_neg hd] at hl
    by_cases hO : trimBlankEdges ((splitLines desc).filter (keepLine keys)) = []
    · rw [hO] at hl
      have : l = [] := by simpa [joinLines, splitLines] using hl
      rw [this]
      exact keepLine_nil keys
    · have hnl : ∀ x ∈ trimBlankEdges ((splitLines desc).filter (keepLine keys)),
          '\n' ∉ x := fun x hx =>
        mem_splitLines_no_newline
          (List.mem_of_mem_filter (mem_trimBlankEdges hx))
      rw [splitLines_joinLines hO hnl] at hl
      exact List.of_mem_filter (mem_trimBlankEdges hl)

theorem ParseAttachmentFields_SetAttachment_none (iss : Issue) (i t s : Str) :
    ParseAttachmentFields
      (some { id := i, title := t,
              description := SetAttachmentFields (some iss) none,
              status := s }) = none :=
  ParseAttachmentFields_eq_none_of_keep i t s _
    (keepLine_mergeDesc_nil attachmentKeys iss.description)

/-- C9: parse and merge treat empty-value schema lines asymmetrically.  For
any list of lines each of which is a `<alias>:` line whose value trims to
nothing (and contains no newline), the joined text parses to "no fields",
while the merge filter drops every one of those lines, so merging the empty
field set over that text yields the empty description. -/
theorem C9_empty_value_asymmetry (ls : List Str) (i t s : Str)
    (h : ∀ l ∈ ls, emptyValueSchemaLine attachmentKeys l = true ∧ '\n' ∉ l) :
    ParseAttachmentFields
      (some { id := i, title := t,
              description := joinLines ls, status := s }) = none ∧
    ls.filter (keepLine attachmentKeys) = [] ∧
    SetAttachmentFields
      (some { id := i, title := t,
              description := joinLines ls, status := s }) none = [] := by
  have hfilter : ls.filter (keepLine attachmentKeys) = [] := by
    rw [List.filter_eq_nil_iff]
    intro l hl
    rw [keepLine_of_emptyValue (h l hl).1]
    simp
  refine ⟨?_, hfilter, ?_⟩
  · unfold ParseAttachmentFields
    by_cases hj : joinLines ls = []
    · simp [hj]
    · have hls : ls ≠ [] := by rintro rfl; exact hj rfl
      simp only [if_neg hj]
      rw [splitLines_joinLines hls fun l hl => (h l hl).2,
        foldl_parseStep_of_emptyValue fun l hl => (h l hl).1]
  · show mergeDesc attachmentKeys [] (joinLines ls) = []
    simp only [mergeDesc, if_true]
    by_cases hj : joinLines ls = []
    · rw [if_pos hj]
      rfl
    · have hls : ls ≠ [] := by rintro rfl; exact hj rfl
      rw [if_neg hj, splitLines_joinLines hls fun l hl => (h l hl).2, hfilter]
      rfl

/-- Witness for C9 at a concrete input: two empty-value schema lines, one
with exotic spacing and case. -/
theorem C9_empty_value_asymmetry_witness :
    (∀ l ∈ [str "attached_molecule:", str "  Attached-At :   "],
      emptyValueSchemaLine attachmentKeys l = true ∧ '\n' ∉ l) ∧
    (ParseAttachmentFields
      (some { id := str "b1", title := str "t",
              description := joinLines
                [str "attached_molecule:", str "  Attached-At :   "],
              status := str "pinned" }) = none ∧
    [str "attached_molecule:", str "  Attached-At :   "].filter
        (keepLine attachmentKeys) = [] ∧
    SetAttachmentFields
      (some { id := str "b1", title := str "t",
              description := joinLines
                [str "attached_molecule:", str "  Attached-At :   "],
              status := str "pinned" }) none = []) :=
  ⟨by decide,
   C9_empty_value_asymmetry _ (str "b1") (str "t") (str "pinned") (by decide)⟩

/-! ## Lemmas about the record store and the audit file -/

theorem findIssue_updateDesc (st : Store) (i d : Str) :
    findIssue (updateDesc st i d) i =
      (findIssue st i).map fun iss => { iss with description := d } := by
  induction st with
  | nil => rfl
  | cons kv rest ih =>
    obtain ⟨k, v⟩ := kv
    by_cases hk : k = i
    · simp only [updateDesc, findIssue, if_pos hk, Option.map_some']
    · simp only [updateDesc, findIssue, if_neg hk, ih]

theorem lookupFile_setFile (files : List (Str × Str)) (p v : Str) :
    lookupFile (setFile files p v) p = some v := by
  induction files with
  | nil => simp [setFile, lookupFile]
  | cons fc rest ih =>
    obtain ⟨p', c'⟩ := fc
    by_cases hp : p' = p
    · simp [setFile, lookupFile, hp]
    · simp [setFile, lookupFile, hp, ih]

theorem hexDigit_lt16_ne_newline : ∀ n < 16, hexDigit n ≠ '\n' := by decide

theorem escChar_no_newline (c : Char) : '\n' ∉ escChar c := by
  unfold escChar
  by_cases h1 : c = '"'
  · rw [if_pos h1]; decide
  · rw [if_neg h1]
    by_cases h2 : c = '\\'
    · rw [if_pos h2]; decide
    · rw [if_neg h2]
      by_cases h3 : c = '\n'
      · rw [if_pos h3]; decide
      · rw [if_neg h3]
        by_cases h4 : c = '\r'
        · rw [if_pos h4]; decide
        · rw [if_neg h4]
          by_cases h5 : c = '\t'
          · rw [if_pos h5]; decide
          · rw [if_neg h5]
            by_cases h6 : c = '<'
            · rw [if_pos h6]; decide
            · rw [if_neg h6]
              by_cases h7 : c = '>'
              · rw [if_pos h7]; decide
              · rw [if_neg h7]
                by_cases h8 : c = '&'
                · rw [if_pos h8]; decide
                · rw [if_neg h8]
                  by_cases h9 : c.toNat < 32
                  · rw [if_pos h9]
                    intro hm
                    rcases List.mem_append.1 hm with hm | hm
                    · revert hm; decide
                    · have hdiv : c.toNat / 16 < 16 :=
                        Nat.div_lt_of_lt_mul (by omega)
                      have hmod : c.toNat % 16 < 16 :=
                        Nat.mod_lt _ (by norm_num)
                      rcases List.mem_cons.1 hm with hm | hm
                      · exact hexDigit_lt16_ne_newline _ hdiv hm.symm
                      · rcases List.mem_cons.1 hm with hm | hm
                        · exact hexDigit_lt16_ne_newline _ hmod hm.symm
                        · exact absurd hm (List.not_mem_nil _)
                  · rw [if_neg h9]
                    by_cases h10 : c = '\u2028'
                    · rw [if_pos h10]; decide
                    · rw [if_neg h10]
                      by_cases h11 : c = '\u2029'
                      · rw [if_pos h11]; decide
                      · rw [if_neg h11]
                        intro hm
                        exact h3 (List.mem_singleton.1 hm).symm

theorem no_newline_append {a b : Str} (ha : '\n' ∉ a) (hb : '\n' ∉ b) :
    '\n' ∉ a ++ b := by
  intro hm
  rcases List.mem_append.1 hm with hm | hm
  · exact ha hm
  · exact hb hm

theorem jsonString_no_newline (s : Str) : '\n' ∉ jsonString s := by
  unfold jsonString
  intro hm
  rcases List.mem_cons.1 hm with h | h
  · exact absurd h (by decide)
  · rcases List.mem_append.1 h with h | h
    · rcases List.mem_flatMap.1 h with ⟨c, _, hc⟩
      exact escChar_no_newline c hc
    · revert h; decide

theorem jsonMarshalAudit_no_newline (e : DetachAuditEntry) :
    '\n' ∉ jsonMarshalAudit e := by
  unfold jsonMarshalAudit
  refine no_newline_append (no_newline_append (no_newline_append
      (no_newline_append ?hx ?hi1) ?hi2) ?hi3) (by decide)
  case hx =>
    exact no_newline_append (no_newline_append (no_newline_append
      (no_newline_append (no_newline_append (no_newline_append
        (no_newline_append (by decide) (jsonString_no_newline _))
        (by decide)) (jsonString_no_newline _)) (by decide))
      (jsonString_no_newline _)) (by decide)) (jsonString_no_newline _)
  case hi1 =>
    split_ifs
    · simp
    · exact no_newline_append (by decide) (jsonString_no_newline _)
  case hi2 =>
    split_ifs
    · simp
    · exact no_newline_append (by decide) (jsonString_no_newline _)
  case hi3 =>
    split_ifs
    · simp
    · exact no_newline_append (by decide) (jsonString_no_newline _)

theorem auditLineCount_append (fs : FS) (wd : Str) (entry : DetachAuditEntry) :
    auditLineCount
      (appendFile fs (auditPath wd) (jsonMarshalAudit entry ++ ['\n'])) wd =
      auditLineCount fs wd + 1 := by
  unfold auditLineCount appendFile
  simp only [lookupFile_setFile, Option.getD_some, List.count_append]
  rw [List.count_eq_zero.2 (jsonMarshalAudit_no_newline entry)]
  rfl

/-! ## C3: idempotent detach -/

/-- C3: Detach on a record whose description has no recognized attachment
fields succeeds, returns the record unchanged and appends no audit entry
(and emits no warning); consequently, after a successful detach of an
attached record, a second Detach is a complete no-op — the second result and
all state are unchanged and exactly one audit entry exists in total. -/
theorem C3_detach_idempotent :
    (∀ (st : Store) (fs : FS) (wd now pid : Str) (opts : DetachOptions)
        (issue : Issue),
      findIssue st pid = some issue →
      ParseAttachmentFields (some issue) = none →
      DetachMoleculeWithAudit st fs wd now pid opts =
        ⟨.ok issue, st, fs, []⟩) ∧
    (∀ (st : Store) (fs : FS) (wd now now2 pid : Str)
        (opts opts2 : DetachOptions) (issue : Issue)
        (att : AttachmentFields) (r : DetachOutcome),
      findIssue st pid = some issue →
      ParseAttachmentFields (some issue) = some att →
      fs.dirs.contains (auditDir wd) = true →
      DetachMoleculeWithAudit st fs wd now pid opts = r →
      r.result = .ok { issue with
        description := SetAttachmentFields (some issue) none } ∧
      DetachMoleculeWithAudit r.store r.fs wd now2 pid opts2 =
        ⟨r.result, r.store, r.fs, []⟩ ∧
      auditLineCount r.fs wd = auditLineCount fs wd + 1) := by
  constructor
  · intro st fs wd now pid opts issue hfind hparse
    simp only [DetachMoleculeWithAudit, hfind, hparse]
  · intro st fs wd now now2 pid opts opts2 issue att r hfind hparse hdir hr
    subst hr
    have hlog : LogDetachAudit fs wd
        { timestamp := now,
          operation := if opts.operation = [] then str "detach"
            else opts.operation,
          pinnedBeadID := pid, detachedMolecule := att.attachedMolecule,
          detachedBy := opts.agent, reason := opts.reason,
          previousState := issue.status } =
        .ok (appendFile fs (auditPath wd)
          (jsonMarshalAudit
            { timestamp := now,
              operation := if opts.operation = [] then str "detach"
                else opts.operation,
              pinnedBeadID := pid, detachedMolecule := att.attachedMolecule,
              detachedBy := opts.agent, reason := opts.reason,
              previousState := issue.status } ++ ['\n'])) := by
      unfold LogDetachAudit
      rw [if_pos hdir]
    have hfind2 : findIssue
        (updateDesc st pid (SetAttachmentFields (some issue) none)) pid =
        some { issue with
          description := SetAttachmentFields (some issue) none } := by
      rw [findIssue_updateDesc, hfind]
      rfl
    have hparse2 : ParseAttachmentFields (some { issue with
        description := SetAttachmentFields (some issue) none }) = none :=
      ParseAttachmentFields_SetAttachment_none issue issue.id issue.title
        issue.status
    refine ⟨?_, ?_, ?_⟩
    · simp only [DetachMoleculeWithAudit, hfind, hparse, hlog, hfind2]
    · simp only [DetachMoleculeWithAudit, hfind, hparse, hlog, hfind2,
        hparse2]
    · simp only [DetachMoleculeWithAudit, hfind, hparse, hlog, hfind2]
      exact auditLineCount_append fs wd _

/-- Witness for C3: a record with no attachment fields detaches as a no-op,
and an attached record detached twice yields an unchanged second result and
one audit line. -/
theorem C3_detach_idempotent_witness :
    (findIssue [(str "c", ⟨str "c", [], str "x", []⟩)] (str "c") =
        some ⟨str "c", [], str "x", []⟩ ∧
      ParseAttachmentFields (some ⟨str "c", [], str "x", []⟩) = none ∧
      DetachMoleculeWithAudit [(str "c", ⟨str "c", [], str "x", []⟩)]
          ⟨[], []⟩ (str "w") (str "T") (str "c") ⟨[], [], []⟩ =
        ⟨.ok ⟨str "c", [], str "x", []⟩,
         [(str "c", ⟨str "c", [], str "x", []⟩)], ⟨[], []⟩, []⟩) ∧
    (findIssue
        [(str "b", ⟨str "b", [], str "attached_molecule: m", str "pinned"⟩)]
        (str "b") =
        some ⟨str "b", [], str "attached_molecule: m", str "pinned"⟩ ∧
      ParseAttachmentFields
        (some ⟨str "b", [], str "attached_molecule: m", str "pinned"⟩) =
        some ⟨str "m", [], []⟩ ∧
      (FS.mk [str "w/.beads"] []).dirs.contains (auditDir (str "w")) = true ∧
      (DetachMoleculeWithAudit
          [(str "b", ⟨str "b", [], str "attached_molecule: m", str "pinned"⟩)]
          ⟨[str "w/.beads"], []⟩ (str "w") (str "T") (str "b")
          ⟨[], [], []⟩).result =
        .ok ⟨str "b", [],
          SetAttachmentFields
            (some ⟨str "b", [], str "attached_molecule: m", str "pinned"⟩)
            none,
          str "pinned"⟩ ∧
      DetachMoleculeWithAudit
          (DetachMoleculeWithAudit
            [(str "b", ⟨str "b", [], str "attached_molecule: m",
              str "pinned"⟩)] ⟨[str "w/.beads"], []⟩ (str "w") (str "T")
            (str "b") ⟨[], [], []⟩).store
          (DetachMoleculeWithAudit
            [(str "b", ⟨str "b", [], str "attached_molecule: m",
              str "pinned"⟩)] ⟨[str "w/.beads"], []⟩ (str "w") (str "T")
            (str "b") ⟨[], [], []⟩).fs
          (str "w") (str "T2") (str "b") ⟨[], [], []⟩ =
        ⟨(DetachMoleculeWithAudit
            [(str "b", ⟨str "b", [], str "attached_molecule: m",
              str "pinned"⟩)] ⟨[str "w/.beads"], []⟩ (str "w") (str "T")
            (str "b") ⟨[], [], []⟩).result,
         (DetachMoleculeWithAudit
            [(str "b", ⟨str "b", [], str "attached_molecule: m",
              str "pinned"⟩)] ⟨[str "w/.beads"], []⟩ (str "w") (str "T")
            (str "b") ⟨[], [], []⟩).store,
         (DetachMoleculeWithAudit
            [(str "b", ⟨str "b", [], str "attached_molecule: m",
              str "pinned"⟩)] ⟨[str "w/.beads"], []⟩ (str "w") (str "T")
            (str "b") ⟨[], [], []⟩).fs, []⟩ ∧
      auditLineCount
          (DetachMoleculeWithAudit
            [(str "b", ⟨str "b", [], str "attached_molecule: m",
              str "pinned"⟩)] ⟨[str "w/.beads"], []⟩ (str "w") (str "T")
            (str "b") ⟨[], [], []⟩).fs (str "w") =
        auditLineCount ⟨[str "w/.beads"], []⟩ (str "w") + 1) :=
  by
  refine ⟨⟨rfl, rfl, ?_⟩, rfl, rfl, rfl, ?_, ?_, ?_⟩
  · exact C3_detach_idempotent.1 _ _ _ _ _ _ _ rfl rfl
  · exact (C3_detach_idempotent.2
      [(str "b", ⟨str "b", [], str "attached_molecule: m", str "pinned"⟩)]
      ⟨[str "w/.beads"], []⟩ (str "w") (str "T") (str "T2") (str "b")
      ⟨[], [], []⟩ ⟨[], [], []⟩
      ⟨str "b", [], str "attached_molecule: m", str "pinned"⟩
      ⟨str "m", [], []⟩
      (DetachMoleculeWithAudit
        [(str "b", ⟨str "b", [], str "attached_molecule: m", str "pinned"⟩)]
        ⟨[str "w/.beads"], []⟩ (str "w") (str "T") (str "b") ⟨[], [], []⟩)
      rfl rfl rfl rfl).1
  · exact (C3_detach_idempotent.2
      [(str "b", ⟨str "b", [], str "attached_molecule: m", str "pinned"⟩)]
      ⟨[str "w/.beads"], []⟩ (str "w") (str "T") (str "T2") (str "b")
      ⟨[], [], []⟩ ⟨[], [], []⟩
      ⟨str "b", [], str "attached_molecule: m", str "pinned"⟩
      ⟨str "m", [], []⟩
      (DetachMoleculeWithAudit
        [(str "b", ⟨str "b", [], str "attached_molecule: m", str "pinned"⟩)]
        ⟨[str "w/.beads"], []⟩ (str "w") (str "T") (str "b") ⟨[], [], []⟩)
      rfl rfl rfl rfl).2.1
  · exact (C3_detach_idempotent.2
      [(str "b", ⟨str "b", [], str "attached_molecule: m", str "pinned"⟩)]
      ⟨[str "w/.beads"], []⟩ (str "w") (str "T") (str "T2") (str "b")
      ⟨[], [], []⟩ ⟨[], [], []⟩
      ⟨str "b", [], str "attached_molecule: m", str "pinned"⟩
      ⟨str "m", [], []⟩
      (DetachMoleculeWithAudit
        [(str "b", ⟨str "b", [], str "attached_molecule: m", str "pinned"⟩)]
        ⟨[str "w/.beads"], []⟩ (str "w") (str "T") (str "b") ⟨[], [], []⟩)
      rfl rfl rfl rfl).2.2

/-! ## C7: the pinned-status precondition -/

/-- C7: Attach on a record whose status is not `pinned` fails with an
invalid-state error naming the record's actual status and persists nothing
(the store is returned unchanged); Detach performs no such check — it can
never return an invalid-state error. -/
theorem C7_attach_requires_pinned :
    (∀ (st : Store) (now pid mid : Str) (issue : Issue),
      findIssue st pid = some issue →
      issue.status ≠ str "pinned" →
      AttachMolecule st now pid mid =
        ⟨.error (.invalidState pid issue.status), st⟩) ∧
    (∀ (st : Store) (pid i s : Str),
      (DetachMolecule st pid).result ≠ .error (.invalidState i s)) := by
  constructor
  · intro st now pid mid issue hfind hstat
    simp only [AttachMolecule, hfind, if_pos hstat]
  · intro st pid i s
    unfold DetachMolecule
    rcases hfind : findIssue st pid with _ | issue
    · simp [hfind]
    · rcases hparse : ParseAttachmentFields (some issue) with _ | att
      · simp [hfind, hparse]
      · rcases hfind2 : findIssue
            (updateDesc st pid (SetAttachmentFields (some issue) none)) pid
          with _ | u
        · simp [hfind, hparse, hfind2]
        · simp [hfind, hparse, hfind2]

/-- Witness for C7: attaching to an `open` record fails with an
invalid-state error naming `open`, without persisting anything. -/
theorem C7_attach_requires_pinned_witness :
    (findIssue [(str "b", ⟨str "b", [], [], str "open"⟩)] (str "b") =
      some ⟨str "b", [], [], str "open"⟩ ∧
    (Issue.mk (str "b") [] [] (str "open")).status ≠ str "pinned" ∧
    AttachMolecule [(str "b", ⟨str "b", [], [], str "open"⟩)] (str "T")
        (str "b") (str "m") =
      ⟨.error (.invalidState (str "b")
        (Issue.mk (str "b") [] [] (str "open")).status),
       [(str "b", ⟨str "b", [], [], str "open"⟩)]⟩) ∧
    (DetachMolecule [(str "b", ⟨str "b", [], [], str "open"⟩)]
        (str "b")).result ≠
      .error (.invalidState (str "b") (str "open")) :=
  ⟨⟨rfl, by decide,
    C7_attach_requires_pinned.1 _ _ _ _ _ rfl (by decide)⟩,
   C7_attach_requires_pinned.2
     [(str "b", ⟨str "b", [], [], str "open"⟩)] (str "b") (str "b")
     (str "open")⟩

/-! ## C6: audit failure does not abort the detach -/

/-- C6: when the audit append fails during a detach of an attached record
(modelled by the audit directory being absent), the detach still proceeds:
the overlay is stripped, the new description is persisted, the filesystem is
unchanged, the failure is reported only on the warning side channel, and the
result is success, not the audit error. -/
theorem C6_audit_failure_isolated (st : Store) (fs : FS)
    (wd now pid : Str) (opts : DetachOptions) (issue : Issue)
    (att : AttachmentFields)
    (hfind : findIssue st pid = some issue)
    (hparse : ParseAttachmentFields (some issue) = some att)
    (hdir : fs.dirs.contains (auditDir wd) = false) :
    DetachMoleculeWithAudit st fs wd now pid opts =
      ⟨.ok { issue with
          description := SetAttachmentFields (some issue) none },
       updateDesc st pid (SetAttachmentFields (some issue) none),
       fs,
       [str "Warning: failed to write audit log: " ++
        str "opening audit log"]⟩ := by
  have hlog : LogDetachAudit fs wd
      { timestamp := now,
        operation := if opts.operation = [] then str "detach"
          else opts.operation,
        pinnedBeadID := pid, detachedMolecule := att.attachedMolecule,
        detachedBy := opts.agent, reason := opts.reason,
        previousState := issue.status } =
      .error (str "opening audit log") := by
    unfold LogDetachAudit
    rw [if_neg fun hc => Bool.false_ne_true (hdir ▸ hc)]
  have hfind2 : findIssue
      (updateDesc st pid (SetAttachmentFields (some issue) none)) pid =
      some { issue with
        description := SetAttachmentFields (some issue) none } := by
    rw [findIssue_updateDesc, hfind]
    rfl
  simp only [DetachMoleculeWithAudit, hfind, hparse, hlog, hfind2]

/-- Witness for C6: detaching an attached record with no `.beads` directory
present succeeds, strips the overlay and reports one warning. -/
theorem C6_audit_failure_isolated_witness :
    (findIssue [(str "b", ⟨str "b", [], str "attached_molecule: m",
        str "pinned"⟩)] (str "b") =
      some ⟨str "b", [], str "attached_molecule: m", str "pinned"⟩ ∧
    ParseAttachmentFields
        (some ⟨str "b", [], str "attached_molecule: m", str "pinned"⟩) =
      some ⟨str "m", [], []⟩ ∧
    (FS.mk [] []).dirs.contains (auditDir (str "w")) = false) ∧
    DetachMoleculeWithAudit
        [(str "b", ⟨str "b", [], str "attached_molecule: m", str "pinned"⟩)]
        ⟨[], []⟩ (str "w") (str "T") (str "b") ⟨[], [], []⟩ =
      ⟨.ok ⟨str "b", [],
          SetAttachmentFields (some ⟨str "b", [],
            str "attached_molecule: m", str "pinned"⟩) none, str "pinned"⟩,
       updateDesc
         [(str "b", ⟨str "b", [], str "attached_molecule: m", str "pinned"⟩)]
         (str "b")
         (SetAttachmentFields (some ⟨str "b", [],
           str "attached_molecule: m", str "pinned"⟩) none),
       ⟨[], []⟩,
       [str "Warning: failed to write audit log: " ++
        str "opening audit log"]⟩ :=
  ⟨⟨rfl, rfl, rfl⟩,
   C6_audit_failure_isolated
     [(str "b", ⟨str "b", [], str "attached_molecule: m", str "pinned"⟩)]
     ⟨[], []⟩ (str "w") (str "T") (str "b") ⟨[], [], []⟩
     ⟨str "b", [], str "attached_molecule: m", str "pinned"⟩
     ⟨str "m", [], []⟩ rfl rfl rfl⟩

/-! ## Lemmas about blank-edge trimming -/

theorem head?_dropWhile_not {α : Type} (p : α → Bool) (l : List α) :
    ∀ x, (l.dropWhile p).head? = some x → p x = false := by
  induction l with
  | nil => intro x hx; simp at hx
  | cons a t ih =>
    intro x hx
    by_cases ha : p a
    · rw [List.dropWhile_cons_of_pos ha] at hx
      exact ih x hx
    · rw [List.dropWhile_cons_of_neg ha] at hx
      simp only [List.head?_cons, Option.some.injEq] at hx
      subst hx
      exact Bool.not_eq_true _ ▸ (by simpa using ha)

theorem dropWhile_eq_self_of_head? {α : Type} (p : α → Bool) (l : List α)
    (h : ∀ x, l.head? = some x → p x = false) : l.dropWhile p = l := by
  cases l with
  | nil => rfl
  | cons a t => exact List.dropWhile_cons_of_neg (by simp [h a rfl])

theorem head?_trimBlankEdges_not (l : List Str) :
    ∀ x, (trimBlankEdges l).head? = some x → isBlankLine x = false :=
  head?_dropWhile_not isBlankLine (dropTrailingBlanks l)

theorem reverse_trimBlankEdges_head?_not (l : List Str) :
    ∀ x, (trimBlankEdges l).reverse.head? = some x → isBlankLine x = false := by
  intro x hx
  have hpre : (trimBlankEdges l).reverse <+:
      (l.reverse.dropWhile isBlankLine) := by
    have hsuf : trimBlankEdges l <:+ dropTrailingBlanks l :=
      List.dropWhile_suffix isBlankLine
    have := List.reverse_prefix.2 hsuf
    rwa [dropTrailingBlanks, List.reverse_reverse] at this
  obtain ⟨t, ht⟩ := hpre
  have hne : (trimBlankEdges l).reverse ≠ [] := by
    intro h0; rw [h0] at hx; simp at hx
  have hhead : (l.reverse.dropWhile isBlankLine).head? = some x := by
    rw [← ht, List.head?_append_of_ne_nil _ hne, hx]
  exact head?_dropWhile_not isBlankLine l.reverse x hhead

theorem dropTrailingBlanks_trimBlankEdges (l : List Str) :
    dropTrailingBlanks (trimBlankEdges l) = trimBlankEdges l := by
  unfold dropTrailingBlanks
  rw [dropWhile_eq_self_of_head? isBlankLine (trimBlankEdges l).reverse
    (reverse_trimBlankEdges_head?_not l), List.reverse_reverse]

theorem trimBlankEdges_idem (l : List Str) :
    trimBlankEdges (trimBlankEdges l) = trimBlankEdges l := by
  conv_lhs => rw [trimBlankEdges, dropTrailingBlanks_trimBlankEdges]
  exact dropWhile_eq_self_of_head? isBlankLine _ (head?_trimBlankEdges_not l)

theorem trimBlankEdges_blank_cons (l : List Str)
    (h : trimBlankEdges l ≠ []) :
    trimBlankEdges ([] :: trimBlankEdges l) = trimBlankEdges l := by
  have hrev : ([] :: trimBlankEdges l).reverse =
      (trimBlankEdges l).reverse ++ [[]] := by
    simp
  have hrne : (trimBlankEdges l).reverse ≠ [] := by
    simpa using h
  have hdrop : (((trimBlankEdges l).reverse ++ [[]]).dropWhile isBlankLine) =
      (trimBlankEdges l).reverse ++ [[]] := by
    apply dropWhile_eq_self_of_head?
    intro x hx
    rw [List.head?_append_of_ne_nil _ hrne] at hx
    exact reverse_trimBlankEdges_head?_not l x hx
  have h1 : dropTrailingBlanks ([] :: trimBlankEdges l) =
      [] :: trimBlankEdges l := by
    unfold dropTrailingBlanks
    rw [hrev, hdrop, List.reverse_append, List.reverse_reverse]
    rfl
  conv_lhs => rw [trimBlankEdges]
  rw [h1, List.dropWhile_cons_of_pos (by rfl)]
  exact dropWhile_eq_self_of_head? isBlankLine _ (head?_trimBlankEdges_not l)

/-! ## Lemmas about the formatted attachment block -/

theorem mem_attachmentFieldLines {f : AttachmentFields} {l : Str}
    (hl : l ∈ attachmentFieldLines f) :
    (l = str "attached_molecule: " ++ f.attachedMolecule ∧
      f.attachedMolecule ≠ []) ∨
    (l = str "attached_at: " ++ f.attachedAt ∧ f.attachedAt ≠ []) ∨
    (l = str "attached_args: " ++ f.attachedArgs ∧ f.attachedArgs ≠ []) := by
  unfold attachmentFieldLines at hl
  rcases List.mem_append.1 hl with hl | hl
  · rcases List.mem_append.1 hl with hl | hl
    · left
      split at hl
      · exact ⟨List.mem_singleton.1 hl, by assumption⟩
      · exact absurd hl (List.not_mem_nil _)
    · right; left
      split at hl
      · exact ⟨List.mem_singleton.1 hl, by assumption⟩
      · exact absurd hl (List.not_mem_nil _)
  · right; right
    split at hl
    · exact ⟨List.mem_singleton.1 hl, by assumption⟩
    · exact absurd hl (List.not_mem_nil _)

theorem keepLine_attachmentFieldLines (f : AttachmentFields) :
    ∀ l ∈ attachmentFieldLines f, keepLine attachmentKeys l = false := by
  intro l hl
  rcases mem_attachmentFieldLines hl with ⟨hle, _⟩ | ⟨hle, _⟩ | ⟨hle, _⟩ <;>
    subst hle
  · rw [show str "attached_molecule: " ++ f.attachedMolecule =
        str "attached_molecule" ++ ':' :: (' ' :: f.attachedMolecule) from rfl,
      keepLine_keyline attachmentKeys _ (by decide) (by decide) (by decide)]
    decide
  · rw [show str "attached_at: " ++ f.attachedAt =
        str "attached_at" ++ ':' :: (' ' :: f.attachedAt) from rfl,
      keepLine_keyline attachmentKeys _ (by decide) (by decide) (by decide)]
    decide
  · rw [show str "attached_args: " ++ f.attachedArgs =
        str "attached_args" ++ ':' :: (' ' :: f.attachedArgs) from rfl,
      keepLine_keyline attachmentKeys _ (by decide) (by decide) (by decide)]
    decide

theorem attachmentFieldLines_ne_nil (f : AttachmentFields) :
    ∀ l ∈ attachmentFieldLines f, l ≠ [] := by
  intro l hl
  rcases mem_attachmentFieldLines hl with ⟨hle, _⟩ | ⟨hle, _⟩ | ⟨hle, _⟩ <;>
    subst hle <;> simp [str]

theorem attachmentFieldLines_no_newline {f : AttachmentFields}
    (hf : valuesNewlineFree (some f)) :
    ∀ l ∈ attachmentFieldLines f, '\n' ∉ l := by
  obtain ⟨hm, ha, hg⟩ := hf
  intro l hl
  rcases mem_attachmentFieldLines hl with ⟨hle, _⟩ | ⟨hle, _⟩ | ⟨hle, _⟩ <;>
    subst hle
  · exact no_newline_append (by decide) hm
  · exact no_newline_append (by decide) ha
  · exact no_newline_append (by decide) hg

theorem foldl_attachmentFieldLines (m a g : Str)
    (hm : okValue m) (ha : okValue a) (hg : okValue g)
    (hpres : m ≠ [] ∨ a ≠ [] ∨ g ≠ []) :
    (attachmentFieldLines ⟨m, a, g⟩).foldl parseStep
      (⟨[], [], []⟩, false) = (⟨m, a, g⟩, true) := by
  by_cases hm0 : m = [] <;> by_cases ha0 : a = [] <;> by_cases hg0 : g = []
  · subst hm0; subst ha0; subst hg0
    simp at hpres
  · subst hm0; subst ha0
    obtain ⟨hgt, -⟩ := hg.resolve_left hg0
    have hlines : attachmentFieldLines ⟨[], [], g⟩ =
        [str "attached_args: " ++ g] := by
      simp [attachmentFieldLines, hg0]
    rw [hlines, List.foldl_cons, parseStep_args _ hg0 hgt, List.foldl_nil]
  · subst hm0; subst hg0
    obtain ⟨hat, -⟩ := ha.resolve_left ha0
    have hlines : attachmentFieldLines ⟨[], a, []⟩ =
        [str "attached_at: " ++ a] := by
      simp [attachmentFieldLines, ha0]
    rw [hlines, List.foldl_cons, parseStep_at _ ha0 hat, List.foldl_nil]
  · subst hm0
    obtain ⟨hat, -⟩ := ha.resolve_left ha0
    obtain ⟨hgt, -⟩ := hg.resolve_left hg0
    have hlines : attachmentFieldLines ⟨[], a, g⟩ =
        [str "attached_at: " ++ a, str "attached_args: " ++ g] := by
      simp [attachmentFieldLines, ha0, hg0]
    rw [hlines, List.foldl_cons, parseStep_at _ ha0 hat, List.foldl_cons,
      parseStep_args _ hg0 hgt, List.foldl_nil]
  · subst ha0; subst hg0
    obtain ⟨hmt, -⟩ := hm.resolve_left hm0
    have hlines : attachmentFieldLines ⟨m, [], []⟩ =
        [str "attached_molecule: " ++ m] := by
      simp [attachmentFieldLines, hm0]
    rw [hlines, List.foldl_cons, parseStep_molecule _ hm0 hmt,
      List.foldl_nil]
  · subst ha0
    obtain ⟨hmt, -⟩ := hm.resolve_left hm0
    obtain ⟨hgt, -⟩ := hg.resolve_left hg0
    have hlines : attachmentFieldLines ⟨m, [], g⟩ =
        [str "attached_molecule: " ++ m, str "attached_args: " ++ g] := by
      simp [attachmentFieldLines, hm0, hg0]
    rw [hlines, List.foldl_cons, parseStep_molecule _ hm0 hmt,
      List.foldl_cons, parseStep_args _ hg0 hgt, List.foldl_nil]
  · subst hg0
    obtain ⟨hmt, -⟩ := hm.resolve_left hm0
    obtain ⟨hat, -⟩ := ha.resolve_left ha0
    have hlines : attachmentFieldLines ⟨m, a, []⟩ =
        [str "attached_molecule: " ++ m, str "attached_at: " ++ a] := by
      simp [attachmentFieldLines, hm0, ha0]
    rw [hlines, List.foldl_cons, parseStep_molecule _ hm0 hmt,
      List.foldl_cons, parseStep_at _ ha0 hat, List.foldl_nil]
  · obtain ⟨hmt, -⟩ := hm.resolve_left hm0
    obtain ⟨hat, -⟩ := ha.resolve_left ha0
    obtain ⟨hgt, -⟩ := hg.resolve_left hg0
    have hlines : attachmentFieldLines ⟨m, a, g⟩ =
        [str "attached_molecule: " ++ m, str "attached_at: " ++ a,
         str "attached_args: " ++ g] := by
      simp [attachmentFieldLines, hm0, ha0, hg0]
    rw [hlines, List.foldl_cons, parseStep_molecule _ hm0 hmt,
      List.foldl_cons, parseStep_at _ ha0 hat, List.foldl_cons,
      parseStep_args _ hg0 hgt, List.foldl_nil]

theorem okValue_no_newline {v : Str} (h : okValue v) : '\n' ∉ v := by
  rcases h with rfl | ⟨-, hn⟩
  · exact List.not_mem_nil _
  · exact hn

theorem attachmentFieldLines_ne_nil_of_pres {m a g : Str}
    (hpres : m ≠ [] ∨ a ≠ [] ∨ g ≠ []) :
    attachmentFieldLines ⟨m, a, g⟩ ≠ [] := by
  intro h0
  rw [attachmentFieldLines] at h0
  simp only [List.append_eq_nil, ite_eq_right_iff] at h0
  rcases hpres with hp | hp | hp
  · simp at h0
    exact hp h0.1.1
  · simp at h0
    exact hp h0.1.2
  · simp at h0
    exact hp h0.2

theorem FormatAttachmentFields_ne_nil {m a g : Str}
    (hpres : m ≠ [] ∨ a ≠ [] ∨ g ≠ []) :
    FormatAttachmentFields (some ⟨m, a, g⟩) ≠ [] := by
  intro h0
  rcases joinLines_eq_nil h0 with h1 | h1
  · exact attachmentFieldLines_ne_nil_of_pres hpres h1
  · exact attachmentFieldLines_ne_nil (f := ⟨m, a, g⟩) []
      (h1 ▸ List.mem_singleton.2 rfl) rfl

theorem ParseAttachmentFields_format (m a g i t s : Str)
    (hm : okValue m) (ha : okValue a) (hg : okValue g)
    (hpres : m ≠ [] ∨ a ≠ [] ∨ g ≠ []) :
    ParseAttachmentFields
      (some ⟨i, t, FormatAttachmentFields (some ⟨m, a, g⟩), s⟩) =
      some ⟨m, a, g⟩ := by
  have hnl : valuesNewlineFree (some ⟨m, a, g⟩) :=
    ⟨okValue_no_newline hm, okValue_no_newline ha, okValue_no_newline hg⟩
  unfold ParseAttachmentFields
  simp only [if_neg (FormatAttachmentFields_ne_nil hpres)]
  rw [show FormatAttachmentFields (some ⟨m, a, g⟩) =
      joinLines (attachmentFieldLines ⟨m, a, g⟩) from rfl,
    splitLines_joinLines (attachmentFieldLines_ne_nil_of_pres hpres)
      (attachmentFieldLines_no_newline hnl),
    foldl_attachmentFieldLines m a g hm ha hg hpres]

/-- C2 (amended): for every attachment field set with at least one present
(non-empty) field, where each present value has no leading or trailing
whitespace and contains no newline, parsing the formatted text yields exactly
the field set back (absent fields round-trip as empty). -/
theorem C2_roundtrip (f : AttachmentFields) (i t s : Str)
    (hm : okValue f.attachedMolecule) (ha : okValue f.attachedAt)
    (hg : okValue f.attachedArgs)
    (hpres : f.attachedMolecule ≠ [] ∨ f.attachedAt ≠ [] ∨
      f.attachedArgs ≠ []) :
    ParseAttachmentFields
      (some ⟨i, t, FormatAttachmentFields (some f), s⟩) = some f := by
  obtain ⟨m, a, g⟩ := f
  exact ParseAttachmentFields_format m a g i t s hm ha hg hpres

/-- Counterexample to C2 as frozen: the field set whose attached_molecule is
`"a\nb"` is non-empty, but parsing its formatted text yields `"a"` — the
newline splits the value across lines — so `parse(format(F)) ≠ F` even
restricted to the fields present in F. -/
theorem C2_roundtrip_counterexample :
    (AttachmentFields.mk (str "a\nb") [] []).attachedMolecule ≠ [] ∧
    ParseAttachmentFields (some ⟨str "p", [],
        FormatAttachmentFields (some ⟨str "a\nb", [], []⟩), []⟩) =
      some ⟨str "a", [], []⟩ ∧
    (AttachmentFields.mk (str "a") [] []).attachedMolecule ≠
      (AttachmentFields.mk (str "a\nb") [] []).attachedMolecule :=
  ⟨by decide, by decide, by decide⟩

/-- Witness for C2 (amended) at a concrete field set. -/
theorem C2_roundtrip_witness :
    (okValue (str "gt-42") ∧ okValue (str "2025-01-01T00:00:00Z") ∧
      okValue ([] : Str) ∧
      (str "gt-42" ≠ [] ∨ str "2025-01-01T00:00:00Z" ≠ [] ∨
        ([] : Str) ≠ [])) ∧
    ParseAttachmentFields (some ⟨str "p", [],
        FormatAttachmentFields
          (some ⟨str "gt-42", str "2025-01-01T00:00:00Z", []⟩), []⟩) =
      some ⟨str "gt-42", str "2025-01-01T00:00:00Z", []⟩ :=
  ⟨⟨by decide, by decide, by decide, by decide⟩,
   C2_roundtrip ⟨str "gt-42", str "2025-01-01T00:00:00Z", []⟩
     (str "p") [] [] (by decide) (by decide) (by decide) (by decide)⟩

theorem ParseAttachmentFields_mergeDesc_format (m a g desc i t s : Str)
    (hm : okValue m) (ha : okValue a) (hg : okValue g)
    (hpres : m ≠ [] ∨ a ≠ [] ∨ g ≠ []) :
    ParseAttachmentFields (some ⟨i, t,
      mergeDesc attachmentKeys
        (FormatAttachmentFields (some ⟨m, a, g⟩)) desc, s⟩) =
      some ⟨m, a, g⟩ := by
  have hfmt : FormatAttachmentFields (some ⟨m, a, g⟩) ≠ [] :=
    FormatAttachmentFields_ne_nil hpres
  have hnlv : valuesNewlineFree (some ⟨m, a, g⟩) :=
    ⟨okValue_no_newline hm, okValue_no_newline ha, okValue_no_newline hg⟩
  by_cases hdesc : desc = []
  · have hmerge : mergeDesc attachmentKeys
        (FormatAttachmentFields (some ⟨m, a, g⟩)) desc =
        FormatAttachmentFields (some ⟨m, a, g⟩) := by
      simp only [mergeDesc, if_pos hdesc, if_neg hfmt]
      rw [if_pos (by rfl)]
    rw [hmerge]
    exact ParseAttachmentFields_format m a g i t s hm ha hg hpres
  · by_cases hO : trimBlankEdges
        ((splitLines desc).filter (keepLine attachmentKeys)) = []
    · have hmerge : mergeDesc attachmentKeys
          (FormatAttachmentFields (some ⟨m, a, g⟩)) desc =
          FormatAttachmentFields (some ⟨m, a, g⟩) := by
        simp only [mergeDesc, if_neg hdesc, if_neg hfmt]
        rw [if_pos hO]
      rw [hmerge]
      exact ParseAttachmentFields_format m a g i t s hm ha hg hpres
    · have hOnl : ∀ l ∈ trimBlankEdges
          ((splitLines desc).filter (keepLine attachmentKeys)), '\n' ∉ l :=
        fun l hl => mem_splitLines_no_newline
          (List.mem_of_mem_filter (mem_trimBlankEdges hl))
      have hOk : ∀ l ∈ trimBlankEdges
          ((splitLines desc).filter (keepLine attachmentKeys)),
          keepLine attachmentKeys l = true :=
        fun l hl => List.of_mem_filter (mem_trimBlankEdges hl)
      have hmerge : mergeDesc attachmentKeys
          (FormatAttachmentFields (some ⟨m, a, g⟩)) desc =
          FormatAttachmentFields (some ⟨m, a, g⟩) ++ '\n' :: '\n' ::
            joinLines (trimBlankEdges
              ((splitLines desc).filter (keepLine attachmentKeys))) := by
        simp only [mergeDesc, if_neg hdesc, if_neg hfmt]
        rw [if_neg hO]
      have hsplit : splitLines (FormatAttachmentFields (some ⟨m, a, g⟩) ++
          '\n' :: '\n' :: joinLines (trimBlankEdges
            ((splitLines desc).filter (keepLine attachmentKeys)))) =
          attachmentFieldLines ⟨m, a, g⟩ ++ [] :: trimBlankEdges
            ((splitLines desc).filter (keepLine attachmentKeys)) := by
        rw [splitLines_append_newline, splitLines_cons_newline,
          splitLines_joinLines hO hOnl,
          show FormatAttachmentFields (some ⟨m, a, g⟩) =
            joinLines (attachmentFieldLines ⟨m, a, g⟩) from rfl,
          splitLines_joinLines (attachmentFieldLines_ne_nil_of_pres hpres)
            (attachmentFieldLines_no_newline hnlv)]
      unfold ParseAttachmentFields
      simp only [hmerge,
        if_neg (List.append_ne_nil_of_right_ne_nil _ (List.cons_ne_nil _ _))]
      rw [hsplit, List.foldl_append,
        foldl_attachmentFieldLines m a g hm ha hg hpres, List.foldl_cons,
        show parseStep ((⟨m, a, g⟩ : AttachmentFields), true) [] =
          ((⟨m, a, g⟩ : AttachmentFields), true) from rfl,
        foldl_parseStep_of_keepLine hOk]

/-- C5 (amended): Attach replaces the entire attachment overlay, including
any existing attached_args line: after a successful Attach with newline-free,
trim-stable moleculeID and timestamp, the new description's parsed
attachment fields are exactly `{attached_molecule := moleculeID,
attached_at := now, attached_args := ""}` — a previously carried
attached_args value is removed, not preserved. -/
theorem C5_attach_replaces_args (st : Store) (now pid mid : Str)
    (issue : Issue)
    (hfind : findIssue st pid = some issue)
    (hstat : issue.status = str "pinned")
    (hmv : mid ≠ []) (hmt : trimSpace mid = mid) (hmn : '\n' ∉ mid)
    (hnv : now ≠ []) (hnt : trimSpace now = now) (hnn : '\n' ∉ now) :
    AttachMolecule st now pid mid =
      ⟨.ok ⟨issue.id, issue.title,
         SetAttachmentFields (some issue) (some ⟨mid, now, []⟩),
         issue.status⟩,
       updateDesc st pid
         (SetAttachmentFields (some issue) (some ⟨mid, now, []⟩))⟩ ∧
    ParseAttachmentFields (some ⟨issue.id, issue.title,
        SetAttachmentFields (some issue) (some ⟨mid, now, []⟩),
        issue.status⟩) = some ⟨mid, now, []⟩ := by
  have hfind2 : findIssue (updateDesc st pid
      (SetAttachmentFields (some issue) (some ⟨mid, now, []⟩))) pid =
      some ⟨issue.id, issue.title,
        SetAttachmentFields (some issue) (some ⟨mid, now, []⟩),
        issue.status⟩ := by
    rw [findIssue_updateDesc, hfind]
    rfl
  have hnpin : ¬(issue.status ≠ str "pinned") := fun hne => hne hstat
  constructor
  · simp only [AttachMolecule, hfind, if_neg hnpin, hfind2]
  · exact ParseAttachmentFields_mergeDesc_format mid now []
      issue.description issue.id issue.title issue.status
      (Or.inr ⟨hmt, hmn⟩) (Or.inr ⟨hnt, hnn⟩) (Or.inl rfl)
      (Or.inl hmv)

/-- Counterexample to C5 as frozen: a pinned record whose description
carries the non-empty attached_args value `"keep"` loses it on Attach — the
merged description parses back with an empty attached_args. -/
theorem C5_attach_replaces_args_counterexample :
    ParseAttachmentFields
        (some ⟨str "b", [], str "attached_args: keep", str "pinned"⟩) =
      some ⟨[], [], str "keep"⟩ ∧
    (AttachMolecule [(str "b", ⟨str "b", [], str "attached_args: keep",
        str "pinned"⟩)] (str "T") (str "b") (str "m")).result =
      .ok ⟨str "b", [], str "attached_molecule: m\nattached_at: T",
        str "pinned"⟩ ∧
    ParseAttachmentFields (some ⟨str "b", [],
        str "attached_molecule: m\nattached_at: T", str "pinned"⟩) =
      some ⟨str "m", str "T", []⟩ ∧
    str "keep" ≠ ([] : Str) ∧
    (AttachmentFields.mk (str "m") (str "T") []).attachedArgs = [] :=
  ⟨by decide, rfl, by decide, by decide, rfl⟩

/-- Witness for C5 (amended) at a concrete pinned record carrying
attached_args. -/
theorem C5_attach_replaces_args_witness :
    (findIssue [(str "b", ⟨str "b", [], str "attached_args: keep",
        str "pinned"⟩)] (str "b") =
      some ⟨str "b", [], str "attached_args: keep", str "pinned"⟩ ∧
    (Issue.mk (str "b") [] (str "attached_args: keep")
        (str "pinned")).status = str "pinned" ∧
    str "m" ≠ ([] : Str) ∧ trimSpace (str "m") = str "m" ∧
    '\n' ∉ str "m" ∧
    str "T" ≠ ([] : Str) ∧ trimSpace (str "T") = str "T" ∧
    '\n' ∉ str "T") ∧
    (AttachMolecule [(str "b", ⟨str "b", [], str "attached_args: keep",
        str "pinned"⟩)] (str "T") (str "b") (str "m") =
      ⟨.ok ⟨str "b", [],
          SetAttachmentFields
            (some ⟨str "b", [], str "attached_args: keep", str "pinned"⟩)
            (some ⟨str "m", str "T", []⟩), str "pinned"⟩,
       updateDesc
         [(str "b", ⟨str "b", [], str "attached_args: keep", str "pinned"⟩)]
         (str "b")
         (SetAttachmentFields
           (some ⟨str "b", [], str "attached_args: keep", str "pinned"⟩)
           (some ⟨str "m", str "T", []⟩))⟩ ∧
    ParseAttachmentFields (some ⟨str "b", [],
        SetAttachmentFields
          (some ⟨str "b", [], str "attached_args: keep", str "pinned"⟩)
          (some ⟨str "m", str "T", []⟩), str "pinned"⟩) =
      some ⟨str "m", str "T", []⟩) :=
  ⟨⟨rfl, rfl, by decide, by decide, by decide, by decide, by decide,
    by decide⟩,
   (C5_attach_replaces_args
      [(str "b", ⟨str "b", [], str "attached_args: keep", str "pinned"⟩)]
      (str "T") (str "b") (str "m")
      ⟨str "b", [], str "attached_args: keep", str "pinned"⟩
      rfl rfl (by decide) (by decide) (by decide) (by decide) (by decide)
      (by decide)).1,
   (C5_attach_replaces_args
      [(str "b", ⟨str "b", [], str "attached_args: keep", str "pinned"⟩)]
      (str "T") (str "b") (str "m")
      ⟨str "b", [], str "attached_args: keep", str "pinned"⟩
      rfl rfl (by decide) (by decide) (by decide) (by decide) (by decide)
      (by decide)).2⟩

/-! ## Idempotence of the merge -/

theorem joinLines_trimBlankEdges_ne_nil {l : List Str}
    (h : trimBlankEdges l ≠ []) : joinLines (trimBlankEdges l) ≠ [] := by
  intro h0
  rcases joinLines_eq_nil h0 with h1 | h1
  · exact h h1
  · have hh : (trimBlankEdges l).head? = some [] := by rw [h1]; rfl
    exact absurd (head?_trimBlankEdges_not l [] hh) (by decide)

theorem mergeDesc_nil_idem (keys : List Str) (T : Str) :
    mergeDesc keys [] (mergeDesc keys [] T) = mergeDesc keys [] T := by
  by_cases hT : T = []
  · subst hT
    rfl
  · have hinner : mergeDesc keys [] T =
        joinLines (trimBlankEdges ((splitLines T).filter (keepLine keys))) := by
      simp only [mergeDesc, if_neg hT, if_true]
    by_cases hO : trimBlankEdges ((splitLines T).filter (keepLine keys)) = []
    · rw [hinner, hO]
      rfl
    · have hOk : ∀ l ∈ trimBlankEdges
          ((splitLines T).filter (keepLine keys)), keepLine keys l = true :=
        fun l hl => List.of_mem_filter (mem_trimBlankEdges hl)
      have hOnl : ∀ l ∈ trimBlankEdges
          ((splitLines T).filter (keepLine keys)), '\n' ∉ l :=
        fun l hl => mem_splitLines_no_newline
          (List.mem_of_mem_filter (mem_trimBlankEdges hl))
      rw [hinner]
      simp only [mergeDesc, if_neg (joinLines_trimBlankEdges_ne_nil hO),
        if_true]
      rw [splitLines_joinLines hO hOnl, List.filter_eq_self.2 hOk,
        trimBlankEdges_idem]

theorem mergeDesc_idem_core (keys : List Str) (fl : List Str) (T : Str)
    (hkeep : ∀ l ∈ fl, keepLine keys l = false)
    (hnl : ∀ l ∈ fl, '\n' ∉ l) :
    mergeDesc keys (joinLines fl) (mergeDesc keys (joinLines fl) T) =
      mergeDesc keys (joinLines fl) T := by
  by_cases hfmt : joinLines fl = []
  · rw [hfmt]
    exact mergeDesc_nil_idem keys T
  · have hfl : fl ≠ [] := by rintro rfl; exact hfmt rfl
    have hfilterfl : fl.filter (keepLine keys) = [] := by
      rw [List.filter_eq_nil_iff]
      intro l hl
      rw [hkeep l hl]
      simp
    have hinner : mergeDesc keys (joinLines fl) T =
        (if trimBlankEdges (if T = [] then []
            else (splitLines T).filter (keepLine keys)) = []
          then joinLines fl
          else joinLines fl ++ '\n' :: '\n' ::
            joinLines (trimBlankEdges (if T = [] then []
              else (splitLines T).filter (keepLine keys)))) := by
      simp only [mergeDesc, if_neg hfmt]
    by_cases hO : trimBlankEdges (if T = [] then []
        else (splitLines T).filter (keepLine keys)) = []
    · rw [hinner, if_pos hO]
      simp only [mergeDesc, if_neg hfmt, if_neg hfmt,
        splitLines_joinLines hfl hnl, hfilterfl]
      rw [if_pos (by rfl)]
    · have hT : T ≠ [] := by
        rintro rfl
        exact hO rfl
      have hOk : ∀ l ∈ trimBlankEdges (if T = [] then []
          else (splitLines T).filter (keepLine keys)),
          keepLine keys l = true := by
        intro l hl
        rw [if_neg hT] at hl
        exact List.of_mem_filter (mem_trimBlankEdges hl)
      have hOnl : ∀ l ∈ trimBlankEdges (if T = [] then []
          else (splitLines T).filter (keepLine keys)), '\n' ∉ l := by
        intro l hl
        rw [if_neg hT] at hl
        exact mem_splitLines_no_newline
          (List.mem_of_mem_filter (mem_trimBlankEdges hl))
      rw [hinner, if_neg hO]
      have houtne : joinLines fl ++ '\n' :: '\n' ::
          joinLines (trimBlankEdges (if T = [] then []
            else (splitLines T).filter (keepLine keys))) ≠ [] :=
        List.append_ne_nil_of_right_ne_nil _ (List.cons_ne_nil _ _)
      have hsplit : splitLines (joinLines fl ++ '\n' :: '\n' ::
          joinLines (trimBlankEdges (if T = [] then []
            else (splitLines T).filter (keepLine keys)))) =
          fl ++ [] :: trimBlankEdges (if T = [] then []
            else (splitLines T).filter (keepLine keys)) := by
        rw [splitLines_append_newline, splitLines_cons_newline,
          splitLines_joinLines hO hOnl, splitLines_joinLines hfl hnl]
      simp only [mergeDesc, if_neg houtne, if_neg hfmt]
      rw [hsplit, List.filter_append, hfilterfl,
        show List.filter (keepLine keys) ([] :: trimBlankEdges
            (if T = [] then []
              else (splitLines T).filter (keepLine keys))) =
          [] :: List.filter (keepLine keys) (trimBlankEdges
            (if T = [] then []
              else (splitLines T).filter (keepLine keys)))
          from by rw [List.filter_cons_of_pos (keepLine_nil keys)],
        List.filter_eq_self.2 hOk, List.nil_append,
        trimBlankEdges_blank_cons _ hO, if_neg hO]

/-- C10: merge is idempotent in its text argument — for every description
text T and attachment field set whose values contain no newline, merging the
same fields into the result of a first merge reproduces the first merge's
output exactly. -/
theorem C10_merge_idempotent (T i t s i2 t2 s2 : Str)
    (f : Option AttachmentFields) (hf : valuesNewlineFree f) :
    SetAttachmentFields (some ⟨i2, t2,
        SetAttachmentFields (some ⟨i, t, T, s⟩) f, s2⟩) f =
      SetAttachmentFields (some ⟨i, t, T, s⟩) f := by
  cases f with
  | none =>
    exact mergeDesc_idem_core attachmentKeys [] T (by simp) (by simp)
  | some f' =>
    exact mergeDesc_idem_core attachmentKeys (attachmentFieldLines f') T
      (keepLine_attachmentFieldLines f') (attachmentFieldLines_no_newline hf)

/-- Witness for C10 at a concrete text (with an overlay line to replace,
an interior blank line and body text) and field set. -/
theorem C10_merge_idempotent_witness :
    valuesNewlineFree (some ⟨str "m", str "T1", []⟩) ∧
    SetAttachmentFields (some ⟨str "q", [],
        SetAttachmentFields (some ⟨str "p", [],
          str "attached_at: old\n\nBody text", []⟩)
          (some ⟨str "m", str "T1", []⟩), []⟩)
        (some ⟨str "m", str "T1", []⟩) =
      SetAttachmentFields (some ⟨str "p", [],
        str "attached_at: old\n\nBody text", []⟩)
        (some ⟨str "m", str "T1", []⟩) :=
  ⟨by decide,
   C10_merge_idempotent (str "attached_at: old\n\nBody text") (str "p") []
     [] (str "q") [] [] (some ⟨str "m", str "T1", []⟩) (by decide)⟩

/-! ## C4: the audit append and the missing directory -/

/-- Counterexample to C4 as frozen: in a workspace whose `.beads` directory
does not exist, the audit append does not succeed and creates nothing — it
fails with an error, because `os.OpenFile` with `O_CREATE` creates only the
file, never the containing directory. -/
theorem C4_audit_append_counterexample :
    (FS.mk [] []).dirs.contains (auditDir (str "w")) = false ∧
    LogDetachAudit ⟨[], []⟩ (str "w")
      ⟨str "T", str "detach", str "b", str "m", [], [], []⟩ =
      .error (str "opening audit log") :=
  ⟨rfl, rfl⟩

/-- C4 (amended): the audit append serializes the entry to a single JSON
line (no embedded newline) and appends it to `<workDir>/.beads/audit.log`,
creating the file if absent; but the containing directory is not created —
when the directory exists the append succeeds, and when it is absent the
append fails with an error. -/
theorem C4_audit_append (fs : FS) (wd : Str) (entry : DetachAuditEntry) :
    '\n' ∉ jsonMarshalAudit entry ∧
    (fs.dirs.contains (auditDir wd) = true →
      LogDetachAudit fs wd entry =
        .ok (appendFile fs (auditPath wd)
          (jsonMarshalAudit entry ++ ['\n'])) ∧
      lookupFile (appendFile fs (auditPath wd)
          (jsonMarshalAudit entry ++ ['\n'])).files (auditPath wd) =
        some ((lookupFile fs.files (auditPath wd)).getD [] ++
          jsonMarshalAudit entry ++ ['\n'])) ∧
    (fs.dirs.contains (auditDir wd) = false →
      LogDetachAudit fs wd entry = .error (str "opening audit log")) := by
  refine ⟨jsonMarshalAudit_no_newline entry,
    fun hdir => ⟨?_, ?_⟩, fun hdir => ?_⟩
  · unfold LogDetachAudit
    rw [if_pos hdir]
  · unfold appendFile
    simp only [lookupFile_setFile]
    rw [List.append_assoc]
  · unfold LogDetachAudit
    rw [if_neg fun hc => Bool.false_ne_true (hdir ▸ hc)]

/-- Witness for C4 (amended): both directions at concrete filesystems. -/
theorem C4_audit_append_witness :
    ('\n' ∉ jsonMarshalAudit
      ⟨str "T", str "detach", str "b", str "m", [], [], []⟩) ∧
    ((FS.mk [str "w/.beads"] []).dirs.contains (auditDir (str "w")) = true ∧
      LogDetachAudit ⟨[str "w/.beads"], []⟩ (str "w")
          ⟨str "T", str "detach", str "b", str "m", [], [], []⟩ =
        .ok (appendFile ⟨[str "w/.beads"], []⟩ (auditPath (str "w"))
          (jsonMarshalAudit
            ⟨str "T", str "detach", str "b", str "m", [], [], []⟩ ++
            ['\n'])) ∧
      lookupFile (appendFile ⟨[str "w/.beads"], []⟩ (auditPath (str "w"))
          (jsonMarshalAudit
            ⟨str "T", str "detach", str "b", str "m", [], [], []⟩ ++
            ['\n'])).files (auditPath (str "w")) =
        some ((lookupFile (FS.mk [str "w/.beads"] []).files
            (auditPath (str "w"))).getD [] ++
          jsonMarshalAudit
            ⟨str "T", str "detach", str "b", str "m", [], [], []⟩ ++
          ['\n'])) ∧
    ((FS.mk [] []).dirs.contains (auditDir (str "w")) = false ∧
      LogDetachAudit ⟨[], []⟩ (str "w")
          ⟨str "T", str "detach", str "b", str "m", [], [], []⟩ =
        .error (str "opening audit log")) :=
  ⟨(C4_audit_append ⟨[str "w/.beads"], []⟩ (str "w")
      ⟨str "T", str "detach", str "b", str "m", [], [], []⟩).1,
   ⟨rfl,
    ((C4_audit_append ⟨[str "w/.beads"], []⟩ (str "w")
      ⟨str "T", str "detach", str "b", str "m", [], [], []⟩).2.1 rfl).1,
    ((C4_audit_append ⟨[str "w/.beads"], []⟩ (str "w")
      ⟨str "T", str "detach", str "b", str "m", [], [], []⟩).2.1 rfl).2⟩,
   ⟨rfl,
    (C4_audit_append ⟨[], []⟩ (str "w")
      ⟨str "T", str "detach", str "b", str "m", [], [], []⟩).2.2 rfl⟩⟩

/-! ## C8: the event log outside a workspace -/

/-- C8: when no workspace root can be resolved (the lookup returns an error
or an empty root), the event log's `write` — and `Log` on top of it —
returns success and writes no file: the filesystem is unchanged. -/
theorem C8_eventlog_noop_without_root :
    (∀ (e : Str) (fs : FS) (ev : Event),
      eventsWrite (.error e) fs ev = (.ok (), fs)) ∧
    (∀ (fs : FS) (ev : Event), eventsWrite (.ok []) fs ev = (.ok (), fs)) ∧
    (∀ (e : Str) (fs : FS) (now eventType actor : Str)
        (payload : List (Str × Json)) (vis : Str),
      eventsLog (.error e) fs now eventType actor payload vis =
        (.ok (), fs)) ∧
    (∀ (fs : FS) (now eventType actor : Str)
        (payload : List (Str × Json)) (vis : Str),
      eventsLog (.ok []) fs now eventType actor payload vis =
        (.ok (), fs)) :=
  ⟨fun _ _ _ => rfl, fun _ _ => rfl, fun _ _ _ _ _ _ _ => rfl,
   fun _ _ _ _ _ _ => rfl⟩
